import Mathlib

/-!
Verification development for the GW2-api-img markdown pipeline (src/main.rs).

The Rust program fetches game data (specializations, skills, traits) as JSON,
projects the records down to a few fields, joins traits with specializations,
deduplicates buff icons, and renders everything as grouped markdown lines.

Shallow embedding conventions:
  - serde_json values are modelled by the inductive `Json`; numbers are `Int`
    (floats never occur in the claims under verification).
  - serde_json objects are association lists looked up by first match;
    the real maps have unique keys, so first-match lookup agrees with them.
  - `anyhow` context errors (recoverable Result errors) are `Err.shape msg`;
    panics raised by unwrap and expect are `Err.panic msg`.  Every unwrap
    panic carries the uniform message "unwrap".
  - HashMap values built by insertion are association lists: `get_buffs`
    inserts only absent keys, `shrink_specializations` prepends, so that a
    first-match lookup realises the last-write-wins semantics of the map.
  - Rust String comparison is byte-wise lexicographic; for valid UTF-8 this
    coincides with code-point lexicographic order, which is the order of
    Lean String (List Char comparison), so String order is used directly.
  - The stable sort `slice::sort_by_key` is modelled by the stable insertion
    sort `isort` (a stable sort is uniquely determined by the comparator).
  - HTTP fetching is external; `get_data` takes the fetch as an oracle
    mapping a chunk of ids to the JSON value the remote returns for it.
-/

/-- Model of a serde_json value.  Numbers are integers (sufficient here). -/
inductive Json where
  | null
  | bool (b : Bool)
  | num (n : Int)
  | str (s : String)
  | arr (elems : List Json)
  | obj (fields : List (String × Json))

/-- Error kinds: anyhow context errors (shape) versus unwrap/expect panics. -/
inductive Err where
  | shape (msg : String)
  | panic (msg : String)
deriving DecidableEq

/-- Value::as_array. -/
def Json.asArr : Json → Option (List Json)
  | .arr xs => some xs
  | _ => none

/-- Value::as_object (an object is an association list of fields). -/
def Json.asObj : Json → Option (List (String × Json))
  | .obj o => some o
  | _ => none

/-- Value::as_str. -/
def Json.asStr : Json → Option String
  | .str s => some s
  | _ => none

/-- Value::as_u64: defined on non-negative integer numbers. -/
def Json.asU64 : Json → Option Nat
  | .num n => if n < 0 then none else some n.toNat
  | _ => none

/-- First-match lookup in an association list (serde Map::get, HashMap::get). -/
def lookupA {β : Type} : List (String × β) → String → Option β
  | [], _ => none
  | p :: rest, k => if p.1 == k then some p.2 else lookupA rest k

/-- First-match lookup with Nat keys (the i32-keyed HashMap of the index). -/
def lookupN {β : Type} : List (Nat × β) → Nat → Option β
  | [], _ => none
  | p :: rest, k => if p.1 == k then some p.2 else lookupN rest k

/-- Option::context from anyhow: a recoverable shape error. -/
def ctxE {α : Type} : Option α → String → Except Err α
  | some a, _ => .ok a
  | none, msg => .error (.shape msg)

/-- Option::expect: a panic carrying the expect message. -/
def expectE {α : Type} : Option α → String → Except Err α
  | some a, _ => .ok a
  | none, msg => .error (.panic msg)

/-- Option::unwrap: a panic with the uniform message "unwrap". -/
def unwrapE {α : Type} : Option α → Except Err α
  | some a => .ok a
  | none => .error (.panic ("unwrap"))

/-! ### Generic sorting machinery (slice::sort_by_key on a string triple) -/

/-- Lexicographic order on the composite sort key
(outer group, inner group, name): the order of a Rust 3-tuple of Strings. -/
def keyLe (a b : String × String × String) : Prop :=
  a.1 < b.1 ∨ (a.1 = b.1 ∧ (a.2.1 < b.2.1 ∨ (a.2.1 = b.2.1 ∧ a.2.2 ≤ b.2.2)))

instance keyLeDec : ∀ a b, Decidable (keyLe a b) := fun a b => by
  unfold keyLe; infer_instance

/-- Insert an element into a list, in front of the first element that is
not strictly smaller (the stable insertion position). -/
def insLe {α : Type} (le : α → α → Bool) (a : α) : List α → List α
  | [] => [a]
  | b :: l => if le a b then a :: b :: l else b :: insLe le a l

/-- Stable insertion sort; models the stable slice::sort_by_key. -/
def isort {α : Type} (le : α → α → Bool) : List α → List α
  | [] => []
  | x :: xs => insLe le x (isort le xs)

/-! ### Generic grouped rendering -/

/-- Key extractors of a grouped renderer: outer group, inner group, name,
icon.  Skills use (professions, type, name, icon); traits use
(profession, spec_str, name, icon). -/
structure RKey (α : Type) where
  ko : α → String
  ki : α → String
  nm : α → String
  ic : α → String

/-- Composite sort key of a record. -/
def RKey.key {α : Type} (K : RKey α) (r : α) : String × String × String :=
  (K.ko r, K.ki r, K.nm r)

/-- Boolean comparator used by the sort. -/
def RKey.leB {α : Type} (K : RKey α) (a b : α) : Bool :=
  decide (keyLe (K.key a) (K.key b))

/-- Markdown entry line of one record. -/
def entryLine {α : Type} (K : RKey α) (r : α) : String :=
  "[" ++ K.nm r ++ "]: " ++ K.ic r

/-- The boundary-detection loop of the source renderers: walk the list
keeping the previous outer and inner keys, emitting an outer header (and
unconditionally an inner header) when the outer key changes, only an inner
header when just the inner key changes, then the entry line. -/
def renderLoop {α : Type} (K : RKey α) : String → String → List α → List String
  | _, _, [] => []
  | lp, lt, r :: rs =>
    (if K.ko r ≠ lp then ["## " ++ K.ko r, "### " ++ K.ki r]
     else if K.ki r ≠ lt then ["### " ++ K.ki r] else [])
    ++ entryLine K r :: renderLoop K (K.ko r) (K.ki r) rs

/-- Maximal contiguous runs of equal key values, each run labelled with its
key.  Written from the spec notion of a contiguous run of a grouping key. -/
def groupByKey {α : Type} (key : α → String) : List α → List (String × List α)
  | [] => []
  | r :: rs =>
    match groupByKey key rs with
    | [] => [(key r, [r])]
    | (k, g) :: t =>
      if key r = k then (k, r :: g) :: t else (key r, [r]) :: (k, g) :: t

/-- Spec-side rendering of the inner groups of one outer run: one inner
header per run followed by the entry lines of the run. -/
def renderInnerGroups {α : Type} (K : RKey α) (hs : List (String × List α)) : List String :=
  hs.flatMap (fun th => ("### " ++ th.1) :: th.2.map (entryLine K))

/-- Spec-side grouped rendering, built from the claim wording: exactly one
outer header per contiguous run of the outer key, exactly one inner header
per contiguous run of the (outer, inner) pair, one entry line per element
directly after the headers it triggered. -/
def renderSpec {α : Type} (K : RKey α) (l : List α) : List String :=
  (groupByKey K.ko l).flatMap
    (fun pg => ("## " ++ pg.1) :: renderInnerGroups K (groupByKey K.ki pg.2))

/-- Generalisation of `renderSpec` to an arbitrary starting state of the
boundary-detection loop: when the first run continues the previous outer
key its outer header is suppressed, and when additionally its first inner
run continues the previous inner key that inner header is suppressed. -/
def auxSpec {α : Type} (K : RKey α) (lp lt : String) (l : List α) : List String :=
  match groupByKey K.ko l with
  | [] => []
  | (p, g) :: t =>
    if p = lp then
      (match groupByKey K.ki g with
       | [] => []
       | (q, h) :: u =>
         (if q = lt then [] else ["### " ++ q]) ++ h.map (entryLine K)
           ++ renderInnerGroups K u)
      ++ t.flatMap
            (fun pg => ("## " ++ pg.1) :: renderInnerGroups K (groupByKey K.ki pg.2))
    else renderSpec K l

/-! ### src/main.rs : to_ids and get_data -/

/-- to_ids from the source. -/
def to_ids (json : Json) : Except Err (List Nat) := do
  let a ← ctxE json.asArr ("not an array")
  ctxE (a.mapM Json.asU64) ("fail to convert to ids")

/-- Fuel-driven worker for slice::chunks(200); the fuel is the list length,
which strictly exceeds the number of chunks whenever the list is nonempty. -/
def chunksAux : Nat → List Nat → List (List Nat)
  | 0, _ => []
  | _, [] => []
  | fuel + 1, l => l.take 200 :: chunksAux fuel (l.drop 200)

/-- ids.chunks(200) from get_data: contiguous chunks of at most 200 ids. -/
def chunksOf200 (l : List Nat) : List (List Nat) := chunksAux l.length l

/-- get_data from the source.  The HTTP fetch of one chunk URL is the
oracle `fetch` (the URL is determined by the chunk ids); each response must
be a JSON array (as_array().unwrap()), and all chunk results are
concatenated in chunk order. -/
def get_data (fetch : List Nat → Except Err Json) (ids : List Nat) :
    Except Err (List Json) := do
  let results ← (chunksOf200 ids).mapM fetch
  let arrs ← results.mapM (fun j => unwrapE j.asArr)
  .ok arrs.flatten

/-! ### src/main.rs : get_buffs -/

/-- The filter closure on a fact: type key present and its string value
(as_str().unwrap(): panics on a non-string) equal to "Buff". -/
def buffTypeIsBuff (f : List (String × Json)) : Except Err Bool :=
  match lookupA f ("type") with
  | none => .ok false
  | some t => (unwrapE t.asStr).map (fun s => s == "Buff")

/-- Effectful filter keeping exactly the Buff-typed facts, in order. -/
def filterBuffs : List (List (String × Json)) → Except Err (List (List (String × Json)))
  | [] => .ok []
  | f :: fs => do
    let b ← buffTypeIsBuff f
    let rest ← filterBuffs fs
    .ok (if b then f :: rest else rest)

/-- Extraction phase of get_buffs: the input array of trait records, each an
object (expect "an object"), keeping those with a facts key, flattening the
facts arrays (as_array().unwrap()), turning each fact into an object
(as_object().unwrap()) and keeping the Buff-typed ones. -/
def buffStream (json : Json) : Except Err (List (List (String × Json))) := do
  let items ← ctxE json.asArr ("input is not array")
  let maps ← items.mapM (fun item => expectE item.asObj ("an object"))
  let withFacts := maps.filter (fun m => (lookupA m ("facts")).isSome)
  let factArrs ← withFacts.mapM (fun m => unwrapE ((lookupA m ("facts")).bind Json.asArr))
  let factObjs ← factArrs.flatten.mapM (fun v => unwrapE v.asObj)
  filterBuffs factObjs

/-- Insertion loop of get_buffs: read the status (context errors), and only
when the status is not yet present read the icon (context errors) and
insert.  Prepending a fresh key realises HashMap::insert. -/
def buffFold : List (List (String × Json)) → List (String × String) →
    Except Err (List (String × String))
  | [], acc => .ok acc
  | f :: fs, acc => do
    let sv ← ctxE (lookupA f ("status")) ("cannot find status of a buff")
    let s ← ctxE sv.asStr ("cannot convert buff status to string")
    if (lookupA acc s).isNone then do
      let iv ← ctxE (lookupA f ("icon")) ("cannot find status of a buff")
      let i ← ctxE iv.asStr ("cannot convert buff status to string")
      buffFold fs ((s, i) :: acc)
    else buffFold fs acc

/-- get_buffs from the source: extraction phase then insertion loop. -/
def get_buffs (json : Json) : Except Err (List (String × String)) :=
  (buffStream json).bind (fun facts => buffFold facts [])

/-! ### src/main.rs : shrink_skills, shrink_traits, shrink_specializations -/

/-- The key set kept by the skill projection. -/
def skillKeep (k : String) : Bool :=
  k == "name" || k == "icon" || k == "type" || k == "professions"

/-- The per-field condition of the first skill filter: a professions field
must be an array of exactly one element; all other fields pass. -/
def profLenOne (p : String × Json) : Bool :=
  if p.1 == "professions" then
    match p.2.asArr with
    | some u => u.length == 1
    | none => false
  else true

/-- shrink_skills from the source.  Each element must be an object (expect
"an object"); its fields are restricted to the kept keys; then three
chained filters: every professions field is a one-element array, the type
key is present, the professions key is present.  (The filters run on the
restricted objects, which are objects by construction, so the
as_object().expect inside the source filter closures cannot fire.) -/
def shrink_skills (json : Json) : Except Err Json := do
  let items ← ctxE json.asArr ("is not an array")
  let objs ← items.mapM (fun v => expectE v.asObj ("an object"))
  let restricted := objs.map (fun o => o.filter (fun p => skillKeep p.1))
  let f1 := restricted.filter (fun o => o.all profLenOne)
  let f2 := f1.filter (fun o => (lookupA o ("type")).isSome)
  let f3 := f2.filter (fun o => (lookupA o ("professions")).isSome)
  .ok (.arr (f3.map Json.obj))

/-- The key set kept by the trait projection. -/
def traitKeep (k : String) : Bool :=
  k == "name" || k == "icon" || k == "specialization"

/-- shrink_traits from the source: restrict every object (unwrap) to the
kept keys, no filtering. -/
def shrink_traits (json : Json) : Except Err Json := do
  let items ← ctxE json.asArr ("is not an array")
  let objs ← items.mapM (fun v => unwrapE v.asObj)
  .ok (.arr (objs.map (fun o => Json.obj (o.filter (fun p => traitKeep p.1)))))

/-- Value::get on a Json value (None when not an object). -/
def Json.get : Json → String → Option Json
  | .obj o, k => lookupA o k
  | _, _ => none

/-- Insertion loop of shrink_specializations.  The key is the id cast
u64-to-i32, which keeps the low 32 bits; since the signed reinterpretation
is injective on 32-bit residues, the key is modelled as id mod 2^32.
Prepending realises the last-write-wins HashMap::insert. -/
def specFold : List Json → List (Nat × (String × String)) →
    Except Err (List (Nat × (String × String)))
  | [], acc => .ok acc
  | spec :: rest, acc => do
    let idv ← ctxE (spec.get ("id")) ("cannot find id")
    let idn ← ctxE idv.asU64 ("cannot cast to u64")
    let nv ← ctxE (spec.get ("name")) ("cannot find spec")
    let n ← ctxE nv.asStr ("cannot cast to str")
    let pv ← ctxE (spec.get ("profession")) ("cannot find spec")
    let p ← ctxE pv.asStr ("cannot cast to str")
    specFold rest ((idn % 2 ^ 32, (p, n)) :: acc)

/-- shrink_specializations from the source. -/
def shrink_specializations (json : Json) :
    Except Err (List (Nat × (String × String))) := do
  let items ← ctxE json.asArr ("is not an array")
  specFold items []

/-! ### src/main.rs : the three renderers -/

/-- buffs_to_markdown from the source: the fixed header line then one entry
line per buff in map iteration order (modelled by the list order; no claim
depends on the nondeterministic HashMap iteration order). -/
def buffs_to_markdown (buffs : List (String × String)) : Except Err (List String) :=
  .ok (("## Buffs") :: buffs.map (fun b => "[" ++ b.1 ++ "]: " ++ b.2))

/-- The per-record map of skills_to_markdown: clone every field, replacing
the professions value by the first element of its array
(as_array().unwrap().first().unwrap()). -/
def skillCollapse (v : Json) : Except Err (List (String × Json)) := do
  let o ← unwrapE v.asObj
  o.mapM (fun p =>
    if p.1 == "professions" then do
      let a ← unwrapE p.2.asArr
      let f ← unwrapE a.head?
      .ok ((p.1, f) : String × Json)
    else .ok p)

/-- The sort_by_key closure of skills_to_markdown: the (professions, type,
name) string triple, every access by get().unwrap().as_str().unwrap(). -/
def skillSortKey (mp : List (String × Json)) : Except Err (String × String × String) := do
  let p ← unwrapE ((lookupA mp ("professions")).bind Json.asStr)
  let t ← unwrapE ((lookupA mp ("type")).bind Json.asStr)
  let n ← unwrapE ((lookupA mp ("name")).bind Json.asStr)
  .ok (p, t, n)

/-- The output loop of skills_to_markdown (all field accesses unwrap). -/
def renderSkillLoop : String → String → List (List (String × Json)) →
    Except Err (List String)
  | _, _, [] => .ok []
  | lp, lt, mp :: ms => do
    let prof ← unwrapE ((lookupA mp ("professions")).bind Json.asStr)
    let typ ← unwrapE ((lookupA mp ("type")).bind Json.asStr)
    let hdrs := if prof ≠ lp then ["## " ++ prof, "### " ++ typ]
      else if typ ≠ lt then ["### " ++ typ] else []
    let n ← unwrapE ((lookupA mp ("name")).bind Json.asStr)
    let i ← unwrapE ((lookupA mp ("icon")).bind Json.asStr)
    let rest ← renderSkillLoop prof typ ms
    .ok (hdrs ++ ("[" ++ n ++ "]: " ++ i) :: rest)

/-- skills_to_markdown from the source: collapse professions, sort stably
by the (professions, type, name) key, then the boundary-detection loop. -/
def skills_to_markdown (json : Json) : Except Err (List String) := do
  let items ← ctxE json.asArr ("is not an array")
  let maps ← items.mapM skillCollapse
  let keyed ← maps.mapM (fun mp => (skillSortKey mp).map (fun k => (mp, k)))
  let sorted := isort (fun a b => decide (keyLe a.2 b.2)) keyed
  renderSkillLoop "" "" (sorted.map (fun q => q.1))

/-! ### src/main.rs : traits_to_markdown (enrichment join + rendering) -/

/-- serde Map::insert: replace the value of an existing key, otherwise
append the new field. -/
def objInsert (o : List (String × Json)) (k : String) (v : Json) :
    List (String × Json) :=
  if o.any (fun p => p.1 == k) then
    o.map (fun p => if p.1 == k then (k, v) else p)
  else o ++ [(k, v)]

/-- One step of the enrichment join: read the specialization id (context
errors), truncate it as the u64-to-i32 cast does, look it up in the index
("cannot find spec" when absent, twice as in the source), and insert the
profession and spec_str fields. -/
def enrichOne (m : List (Nat × (String × String))) (t : Json) : Except Err Json := do
  let sv ← ctxE (t.get ("specialization")) ("no specialization")
  let s ← ctxE sv.asU64 ("cannot cast to u64")
  let e1 ← ctxE (lookupN m (s % 2 ^ 32)) ("cannot find spec")
  let e2 ← ctxE (lookupN m (s % 2 ^ 32)) ("cannot find spec")
  let o ← ctxE t.asObj ("not an object")
  let o2 := objInsert o ("profession") (.str e1.1)
  let o3 ← ctxE (Json.obj o2).asObj ("not an object")
  .ok (.obj (objInsert o3 ("spec_str") (.str e2.2)))

/-- The enrichment for-loop of traits_to_markdown: every trait is enriched,
in order, before any rendering happens. -/
def enrichTraits (json : Json) (m : List (Nat × (String × String))) :
    Except Err Json := do
  let items ← ctxE json.asArr ("is not an array")
  let items2 ← items.mapM (enrichOne m)
  .ok (.arr items2)

/-- The per-record map of the trait rendering phase (the source match
clones every field unchanged, so this is as_object().unwrap()). -/
def traitCollapse (v : Json) : Except Err (List (String × Json)) :=
  unwrapE v.asObj

/-- The sort_by_key closure of traits_to_markdown: the (profession,
spec_str, name) string triple, every access unwrapped. -/
def traitSortKey (mp : List (String × Json)) : Except Err (String × String × String) := do
  let p ← unwrapE ((lookupA mp ("profession")).bind Json.asStr)
  let sp ← unwrapE ((lookupA mp ("spec_str")).bind Json.asStr)
  let n ← unwrapE ((lookupA mp ("name")).bind Json.asStr)
  .ok (p, sp, n)

/-- The output loop of traits_to_markdown: profession and spec_str are read
through context errors, name and icon through unwraps. -/
def renderTraitLoop : String → String → List (List (String × Json)) →
    Except Err (List String)
  | _, _, [] => .ok []
  | lp, lt, mp :: ms => do
    let pv ← ctxE (lookupA mp ("profession")) ("cannot get prof")
    let prof ← ctxE pv.asStr ("cannot cast to str")
    let sv ← ctxE (lookupA mp ("spec_str")) ("cannot get spec")
    let spec ← ctxE sv.asStr ("cannot cast to str")
    let hdrs := if prof ≠ lp then ["## " ++ prof, "### " ++ spec]
      else if spec ≠ lt then ["### " ++ spec] else []
    let n ← unwrapE ((lookupA mp ("name")).bind Json.asStr)
    let i ← unwrapE ((lookupA mp ("icon")).bind Json.asStr)
    let rest ← renderTraitLoop prof spec ms
    .ok (hdrs ++ ("[" ++ n ++ "]: " ++ i) :: rest)

/-- The rendering phase of traits_to_markdown (everything after the
enrichment for-loop): collect the objects, sort stably by the (profession,
spec_str, name) key, then the boundary-detection loop. -/
def traitsRenderPhase (json : Json) : Except Err (List String) := do
  let items ← ctxE json.asArr ("is not an array")
  let maps ← items.mapM traitCollapse
  let keyed ← maps.mapM (fun mp => (traitSortKey mp).map (fun k => (mp, k)))
  let sorted := isort (fun a b => decide (keyLe a.2 b.2)) keyed
  renderTraitLoop "" "" (sorted.map (fun q => q.1))

/-- traits_to_markdown from the source: the enrichment join runs to
completion over all traits, then the rendering phase runs. -/
def traits_to_markdown (json : Json) (m : List (Nat × (String × String))) :
    Except Err (List String) := do
  let enriched ← enrichTraits json m
  traitsRenderPhase enriched

/-- The pure tail of main after the three full-record fetches: extract the
buffs, shrink the three categories, render, and concatenate the buff lines,
then the trait lines, then the skill lines, in the order of the source
iterator chain. -/
def mainRender (specsJson skillsJson traitsJson : Json) : Except Err (List String) := do
  let buffs ← get_buffs traitsJson
  let specializations ← shrink_specializations specsJson
  let skills ← shrink_skills skillsJson
  let traits ← shrink_traits traitsJson
  let buff_markdown ← buffs_to_markdown buffs
  let skill_markdown ← skills_to_markdown skills
  let trait_markdown ← traits_to_markdown traits specializations
  .ok (buff_markdown ++ trait_markdown ++ skill_markdown)

/-! ### Record encodings used by the claims -/

/-- A projected skill record: the four string fields of the claims, with
the professions value already the single profession string. -/
structure SRec where
  professions : String
  type : String
  name : String
  icon : String

/-- Json form of a projected skill as produced by shrink_skills: the
professions field still a one-element array. -/
def encSkill (r : SRec) : Json :=
  .obj [("professions", .arr [.str r.professions]), ("type", .str r.type),
        ("name", .str r.name), ("icon", .str r.icon)]

/-- The collapsed field map of an encoded skill (professions replaced by
its single string). -/
def encSkillC (r : SRec) : List (String × Json) :=
  [("professions", .str r.professions), ("type", .str r.type),
   ("name", .str r.name), ("icon", .str r.icon)]

/-- Key extractors of the skill renderer. -/
def SKey : RKey SRec :=
  ⟨fun r => r.professions, fun r => r.type, fun r => r.name, fun r => r.icon⟩

/-- An enriched trait record as seen by the trait rendering phase. -/
structure TRec where
  profession : String
  spec_str : String
  name : String
  icon : String

/-- Json form of an enriched trait restricted to the four render fields. -/
def encTrait (r : TRec) : Json :=
  .obj [("name", .str r.name), ("icon", .str r.icon),
        ("profession", .str r.profession), ("spec_str", .str r.spec_str)]

/-- The field map of an encoded enriched trait. -/
def encTraitC (r : TRec) : List (String × Json) :=
  [("name", .str r.name), ("icon", .str r.icon),
   ("profession", .str r.profession), ("spec_str", .str r.spec_str)]

/-- Key extractors of the trait renderer. -/
def TKey : RKey TRec :=
  ⟨fun r => r.profession, fun r => r.spec_str, fun r => r.name, fun r => r.icon⟩

/-- A projected trait before enrichment: name, icon, specialization id. -/
structure TRecP where
  name : String
  icon : String
  spec : Nat

/-- Json form of a projected trait as produced by shrink_traits. -/
def encTraitP (r : TRecP) : Json :=
  .obj [("name", .str r.name), ("icon", .str r.icon),
        ("specialization", .num (r.spec : Int))]

/-- Json form of a projected trait after the enrichment join inserted the
profession and spec_str fields. -/
def encTraitE (r : TRecP) (pr sp : String) : Json :=
  .obj [("name", .str r.name), ("icon", .str r.icon),
        ("specialization", .num (r.spec : Int)),
        ("profession", .str pr), ("spec_str", .str sp)]

/-- The field map of `encTraitE`. -/
def encTraitEC (r : TRecP) (pr sp : String) : List (String × Json) :=
  [("name", .str r.name), ("icon", .str r.icon),
   ("specialization", .num (r.spec : Int)),
   ("profession", .str pr), ("spec_str", .str sp)]

/-- Index entry of a projected trait, default pair when absent. -/
def specOf (m : List (Nat × (String × String))) (r : TRecP) : String × String :=
  (lookupN m (r.spec % 2 ^ 32)).getD ("", "")

/-- A raw specialization record with the three required fields. -/
def encSpecRec (id : Nat) (pr n : String) : Json :=
  .obj [("id", .num (id : Int)), ("name", .str n), ("profession", .str pr)]

/-! ### Spec-side definitions for the claims -/

/-- Claim predicate for skill projection survival: professions present, an
array, of exactly one element, and the type key present. -/
def skillSurvives (v : Json) : Bool :=
  match v with
  | .obj o =>
    (match lookupA o ("professions") with
     | some (.arr u) => u.length == 1
     | _ => false)
    && (lookupA o ("type")).isSome
  | _ => false

/-- Claim-side restriction of a record to the kept skill keys. -/
def skillRestrict (v : Json) : Json :=
  match v with
  | .obj o => .obj (o.filter (fun p => skillKeep p.1))
  | _ => v

/-- The status string of a fact object. -/
def statusStr (f : List (String × Json)) : Option String :=
  (lookupA f ("status")).bind Json.asStr

/-- The icon string of a fact object. -/
def iconStr (f : List (String × Json)) : Option String :=
  (lookupA f ("icon")).bind Json.asStr

/-- Spec-side first-wins icon: the icon attached to the first fact of the
Buff stream carrying the given status. -/
def firstBuffIcon (facts : List (List (String × Json))) (s : String) : Option String :=
  (facts.find? (fun f => statusStr f == some s)).bind iconStr

/-- Predicate picking out a recoverable shape error result. -/
def isShapeError {α : Type} : Except Err α → Bool
  | .error (.shape _) => true
  | _ => false

/-! ## Lemmas about the composite key order -/

theorem keyLe_total (a b : String × String × String) : keyLe a b ∨ keyLe b a := by
  unfold keyLe
  rcases lt_trichotomy a.1 b.1 with h | h | h
  · exact Or.inl (Or.inl h)
  · rcases lt_trichotomy a.2.1 b.2.1 with h2 | h2 | h2
    · exact Or.inl (Or.inr ⟨h, Or.inl h2⟩)
    · rcases le_total a.2.2 b.2.2 with h3 | h3
      · exact Or.inl (Or.inr ⟨h, Or.inr ⟨h2, h3⟩⟩)
      · exact Or.inr (Or.inr ⟨h.symm, Or.inr ⟨h2.symm, h3⟩⟩)
    · exact Or.inr (Or.inr ⟨h.symm, Or.inl h2⟩)
  · exact Or.inr (Or.inl h)

theorem keyLe_trans {a b c : String × String × String}
    (h1 : keyLe a b) (h2 : keyLe b c) : keyLe a c := by
  unfold keyLe at h1 h2 ⊢
  rcases h1 with h1 | ⟨e1, h1⟩
  · rcases h2 with h2 | ⟨e2, h2⟩
    · exact Or.inl (h1.trans h2)
    · exact Or.inl (lt_of_lt_of_le h1 (le_of_eq e2))
  · rcases h2 with h2 | ⟨e2, h2⟩
    · exact Or.inl (lt_of_le_of_lt (le_of_eq e1) h2)
    · refine Or.inr ⟨e1.trans e2, ?_⟩
      rcases h1 with h1 | ⟨f1, h1⟩
      · rcases h2 with h2 | ⟨f2, h2⟩
        · exact Or.inl (h1.trans h2)
        · exact Or.inl (lt_of_lt_of_le h1 (le_of_eq f2))
      · rcases h2 with h2 | ⟨f2, h2⟩
        · exact Or.inl (lt_of_le_of_lt (le_of_eq f1) h2)
        · exact Or.inr ⟨f1.trans f2, h1.trans h2⟩

/-! ## Lemmas about the stable insertion sort -/

theorem insLe_perm {α : Type} (le : α → α → Bool) (a : α) :
    ∀ l : List α, (insLe le a l).Perm (a :: l) := by
  intro l
  induction l with
  | nil => exact List.Perm.refl _
  | cons b t ih =>
    unfold insLe
    by_cases h : le a b
    · rw [if_pos h]
    · rw [if_neg h]
      exact (ih.cons b).trans (List.Perm.swap a b t)

theorem isort_perm {α : Type} (le : α → α → Bool) :
    ∀ l : List α, (isort le l).Perm l := by
  intro l
  induction l with
  | nil => exact List.Perm.refl _
  | cons x xs ih => exact (insLe_perm le x (isort le xs)).trans (ih.cons x)

theorem mem_insLe {α : Type} {le : α → α → Bool} {a x : α} {l : List α} :
    x ∈ insLe le a l ↔ x = a ∨ x ∈ l := by
  rw [(insLe_perm le a l).mem_iff]
  simp

theorem pairwise_insLe {α : Type} {le : α → α → Bool}
    (htot : ∀ x y, le x y = true ∨ le y x = true)
    (htrans : ∀ x y z, le x y = true → le y z = true → le x z = true)
    (a : α) :
    ∀ {l : List α}, l.Pairwise (fun x y => le x y = true) →
      (insLe le a l).Pairwise (fun x y => le x y = true) := by
  intro l
  induction l with
  | nil =>
    intro
    simp [insLe]
  | cons b t ih =>
    intro h
    rw [List.pairwise_cons] at h
    obtain ⟨hb, ht⟩ := h
    unfold insLe
    by_cases hab : le a b = true
    · rw [if_pos hab]
      refine List.pairwise_cons.mpr ⟨?_, List.pairwise_cons.mpr ⟨hb, ht⟩⟩
      intro x hx
      rcases List.mem_cons.mp hx with rfl | hx
      · exact hab
      · exact htrans a b x hab (hb x hx)
    · rw [if_neg hab]
      refine List.pairwise_cons.mpr ⟨?_, ih ht⟩
      intro x hx
      rcases mem_insLe.mp hx with h1 | hx
      · rw [h1]
        rcases htot a b with hc | hc
        · exact absurd hc hab
        · exact hc
      · exact hb x hx

theorem pairwise_isort {α : Type} {le : α → α → Bool}
    (htot : ∀ x y, le x y = true ∨ le y x = true)
    (htrans : ∀ x y z, le x y = true → le y z = true → le x z = true) :
    ∀ l : List α, (isort le l).Pairwise (fun x y => le x y = true) := by
  intro l
  induction l with
  | nil => exact List.Pairwise.nil
  | cons x xs ih => exact pairwise_insLe htot htrans x ih

theorem insLe_map {α β : Type} (f : β → α) (le : α → α → Bool) (le2 : β → β → Bool)
    (h : ∀ x y, le (f x) (f y) = le2 x y) (a : β) :
    ∀ l : List β, insLe le (f a) (l.map f) = (insLe le2 a l).map f := by
  intro l
  induction l with
  | nil => rfl
  | cons b t ih =>
    simp only [List.map_cons, insLe, h a b]
    by_cases hab : le2 a b = true
    · rw [if_pos hab, if_pos hab, List.map_cons, List.map_cons]
    · rw [if_neg hab, if_neg hab, List.map_cons, ih]

theorem isort_map {α β : Type} (f : β → α) (le : α → α → Bool) (le2 : β → β → Bool)
    (h : ∀ x y, le (f x) (f y) = le2 x y) :
    ∀ l : List β, isort le (l.map f) = (isort le2 l).map f := by
  intro l
  induction l with
  | nil => rfl
  | cons x xs ih =>
    simp only [List.map_cons, isort, ih]
    exact insLe_map f le le2 h x (isort le2 xs)

/-! ## Lemmas about contiguous runs -/

theorem groupByKey_cons {α : Type} (key : α → String) (r : α) (rs : List α) :
    groupByKey key (r :: rs) =
      match groupByKey key rs with
      | [] => [(key r, [r])]
      | (k, g) :: t =>
        if key r = k then (k, r :: g) :: t else (key r, [r]) :: (k, g) :: t := rfl

theorem groupByKey_eq_nil {α : Type} {key : α → String} :
    ∀ {l : List α}, groupByKey key l = [] ↔ l = [] := by
  intro l
  cases l with
  | nil => simp [groupByKey]
  | cons r rs =>
    rw [groupByKey_cons]
    cases hgs : groupByKey key rs with
    | nil => simp
    | cons p t =>
      obtain ⟨k, g⟩ := p
      by_cases hk : key r = k <;> simp [hk]

theorem groupByKey_cons_key {α : Type} (key : α → String) (r : α) (rs : List α) :
    ∃ g t, groupByKey key (r :: rs) = (key r, g) :: t := by
  rw [groupByKey_cons]
  cases hgs : groupByKey key rs with
  | nil => exact ⟨[r], [], rfl⟩
  | cons p t =>
    obtain ⟨k, g⟩ := p
    by_cases hk : key r = k
    · subst hk
      exact ⟨r :: g, t, by simp⟩
    · exact ⟨[r], (k, g) :: t, by simp [hk]⟩

theorem auxSpec_of_nil {α : Type} (K : RKey α) (lp lt : String) {l : List α}
    (h : groupByKey K.ko l = []) : auxSpec K lp lt l = [] := by
  unfold auxSpec
  rw [h]

theorem auxSpec_of_cons {α : Type} (K : RKey α) (lp lt : String) {l : List α}
    {p : String} {g : List α} {t : List (String × List α)}
    (h : groupByKey K.ko l = (p, g) :: t) :
    auxSpec K lp lt l =
      if p = lp then
        (match groupByKey K.ki g with
         | [] => []
         | (q, hh) :: u =>
           (if q = lt then [] else ["### " ++ q]) ++ hh.map (entryLine K)
             ++ renderInnerGroups K u)
        ++ t.flatMap
             (fun pg => ("## " ++ pg.1) :: renderInnerGroups K (groupByKey K.ki pg.2))
      else renderSpec K l := by
  unfold auxSpec
  rw [h]

theorem renderSpec_groups {α : Type} (K : RKey α) {l : List α}
    {gs : List (String × List α)} (h : groupByKey K.ko l = gs) :
    renderSpec K l =
      gs.flatMap (fun pg => ("## " ++ pg.1) :: renderInnerGroups K (groupByKey K.ki pg.2)) := by
  unfold renderSpec
  rw [h]

theorem auxSpec_of_cons_nil {α : Type} (K : RKey α) (lp lt : String) {l : List α}
    {p : String} {g : List α} {t : List (String × List α)}
    (h : groupByKey K.ko l = (p, g) :: t) (hi : groupByKey K.ki g = []) :
    auxSpec K lp lt l =
      if p = lp then
        t.flatMap (fun pg => ("## " ++ pg.1) :: renderInnerGroups K (groupByKey K.ki pg.2))
      else renderSpec K l := by
  unfold auxSpec
  rw [h]
  simp only [hi, List.nil_append]

theorem auxSpec_of_cons_cons {α : Type} (K : RKey α) (lp lt : String) {l : List α}
    {p q : String} {g hh : List α} {t u : List (String × List α)}
    (h : groupByKey K.ko l = (p, g) :: t) (hi : groupByKey K.ki g = (q, hh) :: u) :
    auxSpec K lp lt l =
      if p = lp then
        ((if q = lt then [] else ["### " ++ q]) ++ hh.map (entryLine K)
           ++ renderInnerGroups K u)
        ++ t.flatMap
             (fun pg => ("## " ++ pg.1) :: renderInnerGroups K (groupByKey K.ki pg.2))
      else renderSpec K l := by
  unfold auxSpec
  rw [h]
  simp only [hi]

theorem auxSpec_of_cons_ne {α : Type} (K : RKey α) (lp lt : String) {l : List α}
    {p : String} {g : List α} {t : List (String × List α)}
    (h : groupByKey K.ko l = (p, g) :: t) (hne : p ≠ lp) :
    auxSpec K lp lt l = renderSpec K l := by
  unfold auxSpec
  rw [h]
  simp [hne]

theorem renderLoop_eq_auxSpec {α : Type} (K : RKey α) :
    ∀ (l : List α) (lp lt : String), renderLoop K lp lt l = auxSpec K lp lt l := by
  intro l
  induction l with
  | nil =>
    intro lp lt
    rfl
  | cons r rs ih =>
    intro lp lt
    simp only [renderLoop]
    rw [ih]
    rcases hgs : groupByKey K.ko rs with _ | ⟨⟨k, g⟩, t⟩
    · -- rs has no runs, hence is empty
      have hrs : rs = [] := groupByKey_eq_nil.mp hgs
      subst hrs
      rw [auxSpec_of_nil K _ _ hgs]
      have hgl : groupByKey K.ko [r] = [(K.ko r, [r])] := by simp [groupByKey]
      have hgir : groupByKey K.ki [r] = [(K.ki r, [r])] := by simp [groupByKey]
      rw [auxSpec_of_cons_cons K lp lt hgl hgir]
      by_cases h1 : K.ko r = lp
      · by_cases h2 : K.ki r = lt <;>
          simp [h1, h2, renderInnerGroups, groupByKey]
      · rw [if_neg h1, renderSpec_groups K hgl]
        simp [h1, renderInnerGroups, groupByKey]
    · by_cases keq : K.ko r = k
      · -- the first run of rs continues with r
        have hgl : groupByKey K.ko (r :: rs) = (k, r :: g) :: t := by
          rw [groupByKey_cons, hgs]
          simp [keq]
        rcases hgi : groupByKey K.ki g with _ | ⟨⟨q, hh⟩, u⟩
        · -- g is empty
          have hgnil : g = [] := groupByKey_eq_nil.mp hgi
          subst hgnil
          rw [auxSpec_of_cons_nil K _ _ hgs hgi, if_pos keq.symm]
          have hgir : groupByKey K.ki [r] = [(K.ki r, [r])] := by simp [groupByKey]
          rw [auxSpec_of_cons_cons K lp lt hgl hgir]
          by_cases hlp : k = lp
          · have hko : K.ko r = lp := keq.trans hlp
            by_cases h2 : K.ki r = lt <;>
              simp [hlp, hko, h2, renderInnerGroups, groupByKey]
          · have hko : ¬ K.ko r = lp := fun e => hlp (keq.symm.trans e)
            rw [if_neg hlp, renderSpec_groups K hgl]
            simp [hko, hlp, keq, renderInnerGroups, groupByKey]
        · -- g has inner runs
          by_cases hq : K.ki r = q
          · have hgir : groupByKey K.ki (r :: g) = (q, r :: hh) :: u := by
              rw [groupByKey_cons, hgi]
              simp [hq]
            rw [auxSpec_of_cons_cons K _ _ hgs hgi, if_pos keq.symm]
            rw [if_pos (show q = K.ki r from hq.symm)]
            rw [auxSpec_of_cons_cons K lp lt hgl hgir]
            by_cases hlp : k = lp
            · have hko : K.ko r = lp := keq.trans hlp
              by_cases h2 : q = lt
              · have h2r : K.ki r = lt := hq.trans h2
                simp [hlp, hko, hq, h2, h2r]
              · have h2r : ¬ K.ki r = lt := fun e => h2 (hq.symm.trans e)
                simp [hlp, hko, hq, h2, h2r]
            · have hko : ¬ K.ko r = lp := fun e => hlp (keq.symm.trans e)
              rw [if_neg hlp, renderSpec_groups K hgl, List.flatMap_cons]
              rw [show groupByKey K.ki (r :: g) = (q, r :: hh) :: u from hgir]
              simp [hko, hlp, hq, keq, renderInnerGroups]
          · have hgir : groupByKey K.ki (r :: g) = (K.ki r, [r]) :: (q, hh) :: u := by
              rw [groupByKey_cons, hgi]
              simp [hq]
            rw [auxSpec_of_cons_cons K _ _ hgs hgi, if_pos keq.symm]
            rw [if_neg (show ¬ q = K.ki r from fun e => hq e.symm)]
            rw [auxSpec_of_cons_cons K lp lt hgl hgir]
            by_cases hlp : k = lp
            · have hko : K.ko r = lp := keq.trans hlp
              have hqr : ¬ q = K.ki r := fun e => hq e.symm
              by_cases h2 : K.ki r = lt
              · have hqlt : ¬ q = lt := fun e => hq (h2.trans e.symm)
                simp [hlp, hko, hq, hqr, h2, hqlt, renderInnerGroups]
              · simp [hlp, hko, hq, hqr, h2, renderInnerGroups]
            · have hko : ¬ K.ko r = lp := fun e => hlp (keq.symm.trans e)
              rw [if_neg hlp, renderSpec_groups K hgl, List.flatMap_cons]
              rw [show groupByKey K.ki (r :: g) = (K.ki r, [r]) :: (q, hh) :: u from hgir]
              simp [hko, hlp, hq, keq, renderInnerGroups]
      · -- r starts a new run in front of the runs of rs
        have hgl : groupByKey K.ko (r :: rs) = (K.ko r, [r]) :: (k, g) :: t := by
          rw [groupByKey_cons, hgs]
          simp [keq]
        rw [auxSpec_of_cons_ne K _ _ hgs (fun e => keq e.symm)]
        have hgir : groupByKey K.ki [r] = [(K.ki r, [r])] := by simp [groupByKey]
        rw [auxSpec_of_cons_cons K lp lt hgl hgir]
        by_cases hlp : K.ko r = lp
        · rw [if_pos hlp, renderSpec_groups K hgs]
          by_cases h2 : K.ki r = lt <;>
            simp [hlp, h2, renderInnerGroups, groupByKey]
        · rw [if_neg hlp, renderSpec_groups K hgl, List.flatMap_cons]
          rw [show groupByKey K.ki [r] = [(K.ki r, [r])] from hgir]
          rw [renderSpec_groups K hgs]
          simp [hlp, renderInnerGroups, groupByKey]

theorem renderLoop_eq_renderSpec {α : Type} (K : RKey α) (l : List α)
    (h : ∀ r ∈ l, K.ko r ≠ "") :
    renderLoop K "" "" l = renderSpec K l := by
  cases l with
  | nil => rfl
  | cons r rs =>
    rw [renderLoop_eq_auxSpec]
    obtain ⟨g, t, hgt⟩ := groupByKey_cons_key K.ko r rs
    rw [auxSpec_of_cons_ne K _ _ hgt (h r (by simp))]

/-! ## Plumbing lemmas for the Except monad -/

theorem ctxE_some {α : Type} (a : α) (msg : String) : ctxE (some a) msg = .ok a := rfl

theorem ctxE_none {α : Type} (msg : String) :
    ctxE (none : Option α) msg = .error (.shape msg) := rfl

theorem unwrapE_some {α : Type} (a : α) : unwrapE (some a) = .ok a := rfl

theorem unwrapE_none {α : Type} :
    unwrapE (none : Option α) = .error (.panic ("unwrap")) := rfl

theorem expectE_some {α : Type} (a : α) (msg : String) : expectE (some a) msg = .ok a := rfl

theorem except_bind_ok {ε α β : Type} (a : α) (f : α → Except ε β) :
    (Except.ok a : Except ε α) >>= f = f a := rfl

theorem except_bind_error {ε α β : Type} (e : ε) (f : α → Except ε β) :
    (Except.error e : Except ε α) >>= f = .error e := rfl

theorem except_map_ok {ε α β : Type} (a : α) (f : α → β) :
    (Except.ok a : Except ε α).map f = .ok (f a) := rfl

theorem mapM_ok_map {β γ δ : Type} {f : γ → Except Err δ} {g : β → γ} {e : β → δ}
    (h : ∀ x, f (g x) = .ok (e x)) :
    ∀ l : List β, (l.map g).mapM f = .ok (l.map e) := by
  intro l
  induction l with
  | nil => rfl
  | cons x xs ih =>
    rw [List.map_cons, List.mapM_cons, h x, List.map_cons]
    rw [except_bind_ok, ih, except_bind_ok]
    rfl

/-! ## The skill pipeline on encoded records -/

theorem skillCollapse_enc (r : SRec) : skillCollapse (encSkill r) = .ok (encSkillC r) := rfl

theorem skillSortKey_enc (r : SRec) :
    skillSortKey (encSkillC r) = .ok (SKey.key r) := rfl

theorem skillKeyed_enc (r : SRec) :
    (skillSortKey (encSkillC r)).map (fun k => (encSkillC r, k)) =
      .ok (encSkillC r, SKey.key r) := rfl

theorem renderSkillLoop_enc :
    ∀ (l : List SRec) (lp lt : String),
      renderSkillLoop lp lt (l.map encSkillC) = .ok (renderLoop SKey lp lt l) := by
  intro l
  induction l with
  | nil =>
    intro lp lt
    rfl
  | cons r rs ih =>
    intro lp lt
    rw [List.map_cons]
    show (do
      let prof ← unwrapE ((lookupA (encSkillC r) ("professions")).bind Json.asStr)
      let typ ← unwrapE ((lookupA (encSkillC r) ("type")).bind Json.asStr)
      let hdrs := if prof ≠ lp then ["## " ++ prof, "### " ++ typ]
        else if typ ≠ lt then ["### " ++ typ] else []
      let n ← unwrapE ((lookupA (encSkillC r) ("name")).bind Json.asStr)
      let i ← unwrapE ((lookupA (encSkillC r) ("icon")).bind Json.asStr)
      let rest ← renderSkillLoop prof typ (rs.map encSkillC)
      .ok (hdrs ++ ("[" ++ n ++ "]: " ++ i) :: rest)) = _
    rw [show (lookupA (encSkillC r) ("professions")).bind Json.asStr
          = some r.professions from rfl]
    rw [show (lookupA (encSkillC r) ("type")).bind Json.asStr = some r.type from rfl]
    rw [show (lookupA (encSkillC r) ("name")).bind Json.asStr = some r.name from rfl]
    rw [show (lookupA (encSkillC r) ("icon")).bind Json.asStr = some r.icon from rfl]
    rw [unwrapE_some, unwrapE_some, unwrapE_some, unwrapE_some]
    simp only [except_bind_ok]
    rw [ih]
    simp only [except_bind_ok]
    rfl

theorem skills_to_markdown_enc (l : List SRec) :
    skills_to_markdown (.arr (l.map encSkill)) =
      .ok (renderLoop SKey "" "" (isort SKey.leB l)) := by
  unfold skills_to_markdown
  rw [show (Json.arr (l.map encSkill)).asArr = some (l.map encSkill) from rfl]
  rw [ctxE_some, except_bind_ok]
  rw [mapM_ok_map skillCollapse_enc l, except_bind_ok]
  rw [@mapM_ok_map SRec (List (String × Json))
        ((List (String × Json)) × String × String × String)
        (fun mp => (skillSortKey mp).map (fun k => (mp, k))) encSkillC
        (fun r => (encSkillC r, SKey.key r)) skillKeyed_enc l,
      except_bind_ok]
  rw [isort_map (fun r => (encSkillC r, SKey.key r))
        (fun a b => decide (keyLe a.2 b.2)) SKey.leB (fun x y => rfl) l]
  simp only [List.map_map]
  exact renderSkillLoop_enc (isort SKey.leB l) "" ""

/-! ## The trait rendering phase on encoded records -/

section TraitEnc

variable {β : Type} (f : β → List (String × Json)) (K : RKey β)

theorem traitSortKey_f
    (hko : ∀ r, (lookupA (f r) ("profession")).bind Json.asStr = some (K.ko r))
    (hki : ∀ r, (lookupA (f r) ("spec_str")).bind Json.asStr = some (K.ki r))
    (hnm : ∀ r, (lookupA (f r) ("name")).bind Json.asStr = some (K.nm r))
    (r : β) : traitSortKey (f r) = .ok (K.key r) := by
  unfold traitSortKey
  rw [hko r, hki r, hnm r]
  rfl

theorem traitKeyed_f
    (hko : ∀ r, (lookupA (f r) ("profession")).bind Json.asStr = some (K.ko r))
    (hki : ∀ r, (lookupA (f r) ("spec_str")).bind Json.asStr = some (K.ki r))
    (hnm : ∀ r, (lookupA (f r) ("name")).bind Json.asStr = some (K.nm r))
    (r : β) :
    (traitSortKey (f r)).map (fun k => (f r, k)) = .ok (f r, K.key r) := by
  rw [traitSortKey_f f K hko hki hnm r]
  rfl

theorem traitCollapse_f (r : β) :
    traitCollapse (Json.obj (f r)) = .ok (f r) := rfl

theorem renderTraitLoop_f
    (hko : ∀ r, (lookupA (f r) ("profession")).bind Json.asStr = some (K.ko r))
    (hki : ∀ r, (lookupA (f r) ("spec_str")).bind Json.asStr = some (K.ki r))
    (hnm : ∀ r, (lookupA (f r) ("name")).bind Json.asStr = some (K.nm r))
    (hic : ∀ r, (lookupA (f r) ("icon")).bind Json.asStr = some (K.ic r)) :
    ∀ (l : List β) (lp lt : String),
      renderTraitLoop lp lt (l.map f) = .ok (renderLoop K lp lt l) := by
  intro l
  induction l with
  | nil =>
    intro lp lt
    rfl
  | cons r rs ih =>
    intro lp lt
    have h1 := hko r
    have h2 := hki r
    rcases hl1 : lookupA (f r) ("profession") with _ | pv
    · rw [hl1] at h1
      exact absurd h1 (by simp)
    rcases hl2 : lookupA (f r) ("spec_str") with _ | sv
    · rw [hl2] at h2
      exact absurd h2 (by simp)
    rw [hl1] at h1
    rw [hl2] at h2
    rw [Option.some_bind] at h1 h2
    rw [List.map_cons]
    show (do
      let pv ← ctxE (lookupA (f r) ("profession")) ("cannot get prof")
      let prof ← ctxE pv.asStr ("cannot cast to str")
      let sv ← ctxE (lookupA (f r) ("spec_str")) ("cannot get spec")
      let spec ← ctxE sv.asStr ("cannot cast to str")
      let hdrs := if prof ≠ lp then ["## " ++ prof, "### " ++ spec]
        else if spec ≠ lt then ["### " ++ spec] else []
      let n ← unwrapE ((lookupA (f r) ("name")).bind Json.asStr)
      let i ← unwrapE ((lookupA (f r) ("icon")).bind Json.asStr)
      let rest ← renderTraitLoop prof spec (rs.map f)
      .ok (hdrs ++ ("[" ++ n ++ "]: " ++ i) :: rest)) = _
    rw [hl1, ctxE_some, except_bind_ok, h1, ctxE_some, except_bind_ok]
    rw [hl2, ctxE_some, except_bind_ok, h2, ctxE_some, except_bind_ok]
    rw [hnm r, unwrapE_some, except_bind_ok]
    rw [hic r, unwrapE_some, except_bind_ok]
    rw [ih]
    simp only [except_bind_ok]
    rfl

theorem traitsRenderPhase_f
    (hko : ∀ r, (lookupA (f r) ("profession")).bind Json.asStr = some (K.ko r))
    (hki : ∀ r, (lookupA (f r) ("spec_str")).bind Json.asStr = some (K.ki r))
    (hnm : ∀ r, (lookupA (f r) ("name")).bind Json.asStr = some (K.nm r))
    (hic : ∀ r, (lookupA (f r) ("icon")).bind Json.asStr = some (K.ic r))
    (l : List β) :
    traitsRenderPhase (.arr (l.map (fun r => Json.obj (f r)))) =
      .ok (renderLoop K "" "" (isort K.leB l)) := by
  unfold traitsRenderPhase
  rw [show (Json.arr (l.map (fun r => Json.obj (f r)))).asArr
        = some (l.map (fun r => Json.obj (f r))) from rfl]
  rw [ctxE_some, except_bind_ok]
  rw [show (l.map (fun r => Json.obj (f r))).mapM traitCollapse = .ok (l.map f) from
        mapM_ok_map (traitCollapse_f f) l]
  rw [except_bind_ok]
  rw [@mapM_ok_map β (List (String × Json))
        ((List (String × Json)) × String × String × String)
        (fun mp => (traitSortKey mp).map (fun k => (mp, k))) f
        (fun r => (f r, K.key r)) (traitKeyed_f f K hko hki hnm) l,
      except_bind_ok]
  rw [isort_map (fun r => (f r, K.key r))
        (fun a b => decide (keyLe a.2 b.2)) K.leB (fun x y => rfl) l]
  simp only [List.map_map]
  exact renderTraitLoop_f f K hko hki hnm hic (isort K.leB l) "" ""

end TraitEnc

theorem traitsRenderPhase_encTrait (l : List TRec) :
    traitsRenderPhase (.arr (l.map encTrait)) =
      .ok (renderLoop TKey "" "" (isort TKey.leB l)) :=
  traitsRenderPhase_f encTraitC TKey (fun _ => rfl) (fun _ => rfl) (fun _ => rfl)
    (fun _ => rfl) l

theorem leB_total {α : Type} (K : RKey α) :
    ∀ x y, K.leB x y = true ∨ K.leB y x = true := by
  intro x y
  rcases keyLe_total (K.key x) (K.key y) with h | h
  · exact Or.inl (decide_eq_true h)
  · exact Or.inr (decide_eq_true h)

theorem leB_trans {α : Type} (K : RKey α) :
    ∀ x y z, K.leB x y = true → K.leB y z = true → K.leB x z = true := by
  intro x y z h1 h2
  exact decide_eq_true (keyLe_trans (of_decide_eq_true h1) (of_decide_eq_true h2))

theorem isort_sorted_key {α : Type} (K : RKey α) (l : List α) :
    (isort K.leB l).Pairwise (fun a b => keyLe (K.key a) (K.key b)) := by
  have h := pairwise_isort (leB_total K) (leB_trans K) l
  exact h.imp (fun hab => of_decide_eq_true hab)

/-- C1 (amended): provided every record carries a nonempty outer grouping
key, the skill renderer equals the spec-side grouped rendering of a sorted
permutation of its input: it renders some permutation of the records that
is sorted by the composite (professions, type, name) key under
case-sensitive lexicographic string order, emitting one outer header per
contiguous run of professions, one inner header per contiguous run of the
(professions, type) pair, and one entry line per element directly after its
headers; the same holds for the trait rendering phase with the
(profession, spec_str, name) key. -/
theorem claim1_grouped_rendering (ls : List SRec) (ts : List TRec)
    (hs : ∀ r ∈ ls, r.professions ≠ "") (ht : ∀ r ∈ ts, r.profession ≠ "") :
    ∃ ls2 ts2,
      ls.Perm ls2 ∧ ls2.Pairwise (fun a b => keyLe (SKey.key a) (SKey.key b)) ∧
      skills_to_markdown (.arr (ls.map encSkill)) = .ok (renderSpec SKey ls2) ∧
      ts.Perm ts2 ∧ ts2.Pairwise (fun a b => keyLe (TKey.key a) (TKey.key b)) ∧
      traitsRenderPhase (.arr (ts.map encTrait)) = .ok (renderSpec TKey ts2) := by
  refine ⟨isort SKey.leB ls, isort TKey.leB ts,
    (isort_perm _ ls).symm, isort_sorted_key SKey ls, ?_,
    (isort_perm _ ts).symm, isort_sorted_key TKey ts, ?_⟩
  · rw [skills_to_markdown_enc ls]
    rw [renderLoop_eq_renderSpec SKey (isort SKey.leB ls)
          (fun r hr => hs r ((isort_perm SKey.leB ls).mem_iff.mp hr))]
  · rw [traitsRenderPhase_encTrait ts]
    rw [renderLoop_eq_renderSpec TKey (isort TKey.leB ts)
          (fun r hr => ht r ((isort_perm TKey.leB ts).mem_iff.mp hr))]

/-- C1 counterexample: a projected skill whose professions string is empty
is rendered with no outer header line at all (the loop trackers start at
the empty string), so its run of the professions value gets no header,
contradicting the claim as stated for arbitrary string fields. -/
theorem claim1_cex :
    skills_to_markdown (.arr [encSkill ⟨"", "t", "n", "i"⟩])
      = .ok (["### t", "[n]: i"]) ∧
    ("## ") ∉ (["### t", "[n]: i"] : List String) := by
  exact ⟨rfl, by decide⟩

/-- C1 witness: the amended theorem applied to the boundary-detection
scenario of the spec. -/
theorem claim1_witness :
    ∃ ls2 ts2,
      ([⟨"A", "heal", "Z", "iz"⟩, ⟨"A", "heal", "M", "im"⟩,
        ⟨"A", "util", "B", "ib"⟩, ⟨"B", "heal", "C", "ic"⟩] : List SRec).Perm ls2 ∧
      ls2.Pairwise (fun a b => keyLe (SKey.key a) (SKey.key b)) ∧
      skills_to_markdown
          (.arr (([⟨"A", "heal", "Z", "iz"⟩, ⟨"A", "heal", "M", "im"⟩,
                   ⟨"A", "util", "B", "ib"⟩, ⟨"B", "heal", "C", "ic"⟩] :
                    List SRec).map encSkill))
        = .ok (renderSpec SKey ls2) ∧
      ([⟨"Guardian", "Zeal", "X", "i"⟩] : List TRec).Perm ts2 ∧
      ts2.Pairwise (fun a b => keyLe (TKey.key a) (TKey.key b)) ∧
      traitsRenderPhase
          (.arr (([⟨"Guardian", "Zeal", "X", "i"⟩] : List TRec).map encTrait))
        = .ok (renderSpec TKey ts2) := by
  exact claim1_grouped_rendering _ _
    (by intro r hr; fin_cases hr <;> decide)
    (by intro r hr; fin_cases hr; decide)

/-- C9: on empty input the skill renderer and the trait renderer produce an
empty output sequence, while the buff renderer on the empty buff map emits
exactly the single fixed header line. -/
theorem claim9_empty_inputs :
    skills_to_markdown (.arr []) = .ok [] ∧
    (∀ m : List (Nat × (String × String)), traits_to_markdown (.arr []) m = .ok []) ∧
    buffs_to_markdown [] = .ok (["## Buffs"]) :=
  ⟨rfl, fun _ => rfl, rfl⟩

/-! ## Lemmas for the skill projection -/

theorem filter_map_comm {β γ : Type} (f : β → γ) (p : γ → Bool) :
    ∀ l : List β, (l.map f).filter p = (l.filter (fun x => p (f x))).map f := by
  intro l
  induction l with
  | nil => rfl
  | cons x xs ih =>
    rw [List.map_cons, List.filter_cons, List.filter_cons]
    cases hp : p (f x)
    · rw [if_neg (by simp [hp]), if_neg (by simp [hp])]
      exact ih
    · rw [if_pos (by simp [hp]), if_pos (by simp [hp]), List.map_cons, ih]

theorem lookupA_filter_keep {keep : String → Bool} {k : String} (hk : keep k = true) :
    ∀ o : List (String × Json),
      lookupA (o.filter (fun p => keep p.1)) k = lookupA o k := by
  intro o
  induction o with
  | nil => rfl
  | cons p rest ih =>
    rw [List.filter_cons]
    cases hpk : p.1 == k
    · cases hkp : keep p.1
      · rw [if_neg (by simp [hkp])]
        rw [ih]
        simp [lookupA, hpk]
      · rw [if_pos (by simp [hkp])]
        simp [lookupA, hpk, ih]
    · have hp1 : p.1 = k := eq_of_beq hpk
      have hkeep : keep p.1 = true := by rw [hp1]; exact hk
      rw [if_pos (by simp [hkeep])]
      simp [lookupA, hpk]

theorem lookupA_eq_none_of_not_mem {β : Type} {k : String} :
    ∀ {o : List (String × β)}, k ∉ o.map (fun p => p.1) → lookupA o k = none := by
  intro o
  induction o with
  | nil =>
    intro _
    rfl
  | cons p rest ih =>
    intro h
    rw [List.map_cons, List.mem_cons] at h
    push_neg at h
    have hb : (p.1 == k) = false := by
      cases hb2 : p.1 == k
      · rfl
      · exact absurd (eq_of_beq hb2).symm h.1
    simp [lookupA, hb, ih h.2]

theorem all_profLenOne_of_no_prof :
    ∀ {o : List (String × Json)},
      lookupA o ("professions") = none → o.all profLenOne = true := by
  intro o
  induction o with
  | nil =>
    intro _
    rfl
  | cons p rest ih =>
    intro h
    cases hb : p.1 == ("professions")
    · have hrest : lookupA rest ("professions") = none := by
        rw [show lookupA (p :: rest) ("professions")
              = lookupA rest ("professions") from by simp [lookupA, hb]] at h
        exact h
      rw [List.all_cons, ih hrest]
      have h1 : profLenOne p = true := by simp [profLenOne, hb]
      rw [h1]
      rfl
    · exfalso
      simp [lookupA, hb] at h

theorem all_profLenOne_nodup :
    ∀ {o : List (String × Json)}, (o.map (fun p => p.1)).Nodup →
      o.all profLenOne =
        (match lookupA o ("professions") with
         | some v =>
           (match v.asArr with
            | some u => u.length == 1
            | none => false)
         | none => true) := by
  intro o
  induction o with
  | nil =>
    intro _
    rfl
  | cons p rest ih =>
    intro hnd
    rw [List.map_cons, List.nodup_cons] at hnd
    obtain ⟨hp, hrest⟩ := hnd
    cases hb : p.1 == ("professions")
    · rw [List.all_cons]
      have h1 : profLenOne p = true := by simp [profLenOne, hb]
      rw [h1,
        show lookupA (p :: rest) ("professions")
          = lookupA rest ("professions") from by simp [lookupA, hb],
        ih hrest]
      simp
    · have hp1 : p.1 = "professions" := eq_of_beq hb
      have hnone : lookupA rest ("professions") = none :=
        lookupA_eq_none_of_not_mem (by rw [← hp1]; exact hp)
      rw [List.all_cons,
        show lookupA (p :: rest) ("professions") = some p.2 from by simp [lookupA, hb],
        all_profLenOne_of_no_prof hnone]
      have h2 : profLenOne p =
          (match p.2.asArr with
           | some u => u.length == 1
           | none => false) := by
        simp [profLenOne, hb]
      rw [h2]
      simp

theorem all_profLenOne_filter :
    ∀ o : List (String × Json),
      (o.filter (fun p => skillKeep p.1)).all profLenOne = o.all profLenOne := by
  intro o
  induction o with
  | nil => rfl
  | cons p rest ih =>
    rw [List.filter_cons]
    cases hk : skillKeep p.1
    · have hb : (p.1 == ("professions")) = false := by
        cases hb2 : p.1 == ("professions")
        · rfl
        · rw [eq_of_beq hb2] at hk
          exact absurd hk (by decide)
      have h1 : profLenOne p = true := by simp [profLenOne, hb]
      rw [if_neg (by simp [hk])]
      rw [ih, List.all_cons, h1]
      rfl
    · rw [if_pos (by simp [hk])]
      rw [List.all_cons, List.all_cons, ih]

/-- C2 (amended): a skill Raw Record (a JSON object with distinct keys)
survives the projection if and only if its professions field is present, is
an array, and has exactly one element, and its type KEY is present (the
value may be null: the code checks key presence, not non-nullness);
surviving records are restricted to the keys name, icon, type, professions. -/
theorem claim2_skill_projection (os : List (List (String × Json)))
    (hnd : ∀ o ∈ os, (o.map (fun p => p.1)).Nodup) :
    shrink_skills (.arr (os.map Json.obj)) =
      .ok (.arr (((os.map Json.obj).filter skillSurvives).map skillRestrict)) := by
  unfold shrink_skills
  rw [show (Json.arr (os.map Json.obj)).asArr = some (os.map Json.obj) from rfl,
    ctxE_some, except_bind_ok]
  rw [@mapM_ok_map (List (String × Json)) Json (List (String × Json))
        (fun v => expectE v.asObj ("an object")) Json.obj (fun o => o)
        (fun _ => rfl) os,
    except_bind_ok]
  have hlist :
      (((((os.map (fun o => o)).map
            (fun o => o.filter (fun p => skillKeep p.1))).filter
            (fun o => o.all profLenOne)).filter
          (fun o => (lookupA o ("type")).isSome)).filter
          (fun o => (lookupA o ("professions")).isSome)).map Json.obj
        = ((os.map Json.obj).filter skillSurvives).map skillRestrict := by
    rw [List.map_id']
    rw [filter_map_comm (fun o => o.filter (fun p => skillKeep p.1))
          (fun o => o.all profLenOne) os]
    rw [filter_map_comm, filter_map_comm, List.map_map]
    rw [filter_map_comm Json.obj skillSurvives os, List.map_map]
    rw [List.filter_filter, List.filter_filter]
    rw [show (skillRestrict ∘ Json.obj)
          = (Json.obj ∘ fun o => o.filter (fun p => skillKeep p.1)) from rfl]
    refine congrArg _ (List.filter_congr ?_)
    intro o ho
    rw [all_profLenOne_filter o]
    rw [lookupA_filter_keep (show skillKeep ("type") = true from by decide) o]
    rw [lookupA_filter_keep (show skillKeep ("professions") = true from by decide) o]
    rw [all_profLenOne_nodup (hnd o ho)]
    rcases hv : lookupA o ("professions") with _ | v
    · simp [skillSurvives, hv]
    · rcases v with _ | b | n | s | u | oo <;>
        simp [skillSurvives, hv, Json.asArr, Bool.and_comm, Bool.and_assoc,
          Bool.and_left_comm]
  exact congrArg (fun ll => Except.ok (Json.arr ll)) hlist

/-- C2 counterexample: a record whose type value is null survives the
projection, while the claim as stated requires a non-null type. -/
theorem claim2_cex :
    shrink_skills (.arr [.obj [("professions", .arr [.str ("A")]), ("type", .null)]])
      = .ok (.arr [.obj [("professions", .arr [.str ("A")]), ("type", .null)]]) := rfl

/-- C2 witness: the amended theorem at a concrete record list with one
surviving record (extra key dropped) and one dropped record. -/
theorem claim2_witness :
    shrink_skills (.arr (([
        [("name", .str ("n")), ("icon", .str ("i")), ("type", .str ("t")),
         ("professions", .arr [.str ("A")]), ("junk", .null)],
        [("name", .str ("m")), ("type", .str ("t")),
         ("professions", .arr [.str ("A"), .str ("B")])]] :
          List (List (String × Json))).map Json.obj)) =
      .ok (.arr ((((([
        [("name", .str ("n")), ("icon", .str ("i")), ("type", .str ("t")),
         ("professions", .arr [.str ("A")]), ("junk", .null)],
        [("name", .str ("m")), ("type", .str ("t")),
         ("professions", .arr [.str ("A"), .str ("B")])]] :
          List (List (String × Json))).map Json.obj)).filter
            skillSurvives).map skillRestrict)) :=
  claim2_skill_projection _ (by intro o ho; fin_cases ho <;> decide)

/-! ## Lemmas for the buff extractor -/

theorem not_mem_keys_of_lookupA_none {β : Type} {k : String} :
    ∀ {o : List (String × β)}, lookupA o k = none → k ∉ o.map (fun p => p.1) := by
  intro o
  induction o with
  | nil =>
    intro _ hm
    exact absurd hm (by simp)
  | cons p rest ih =>
    intro h hm
    cases hb : p.1 == k
    · rw [show lookupA (p :: rest) k = lookupA rest k from by simp [lookupA, hb]] at h
      rcases List.mem_cons.mp hm with he | hm2
      · rw [he] at hb
        simp at hb
      · exact ih h hm2
    · rw [show lookupA (p :: rest) k = some p.2 from by simp [lookupA, hb]] at h
      exact Option.noConfusion h

theorem firstBuffIcon_cons_pos {f : List (String × Json)}
    {fs : List (List (String × Json))} {s : String}
    (h : (statusStr f == some s) = true) :
    firstBuffIcon (f :: fs) s = iconStr f := by
  simp only [firstBuffIcon]
  rw [@List.find?_cons_of_pos _ (fun g => statusStr g == some s) f fs h]
  rfl

theorem firstBuffIcon_cons_ne {f : List (String × Json)}
    {fs : List (List (String × Json))} {s : String}
    (h : (statusStr f == some s) = false) :
    firstBuffIcon (f :: fs) s = firstBuffIcon fs s := by
  simp only [firstBuffIcon]
  rw [@List.find?_cons_of_neg _ (fun g => statusStr g == some s) f fs (by simp [h])]

theorem buffFold_lookup :
    ∀ (facts : List (List (String × Json))) (acc m : List (String × String)),
      buffFold facts acc = .ok m →
      ∀ s, lookupA m s = (lookupA acc s).or (firstBuffIcon facts s) := by
  intro facts
  induction facts with
  | nil =>
    intro acc m h s
    have hacc : acc = m := by
      simpa [buffFold] using h
    subst hacc
    simp [firstBuffIcon]
  | cons f fs ih =>
    intro acc m h s
    rw [buffFold] at h
    rcases hsv : lookupA f ("status") with _ | sv
    · rw [hsv, ctxE_none, except_bind_error] at h
      exact Except.noConfusion h
    rw [hsv, ctxE_some, except_bind_ok] at h
    rcases hss : sv.asStr with _ | st
    · rw [hss, ctxE_none, except_bind_error] at h
      exact Except.noConfusion h
    rw [hss, ctxE_some, except_bind_ok] at h
    by_cases hdup : (lookupA acc st).isNone
    · rw [if_pos hdup] at h
      rcases hiv : lookupA f ("icon") with _ | iv
      · rw [hiv, ctxE_none, except_bind_error] at h
        exact Except.noConfusion h
      rw [hiv, ctxE_some, except_bind_ok] at h
      rcases his : iv.asStr with _ | ist
      · rw [his, ctxE_none, except_bind_error] at h
        exact Except.noConfusion h
      rw [his, ctxE_some, except_bind_ok] at h
      have hm := ih _ _ h s
      by_cases hs2 : s = st
      · subst hs2
        rw [show lookupA ((s, ist) :: acc) s = some ist from by simp [lookupA]] at hm
        rw [hm]
        have hacc : lookupA acc s = none := Option.isNone_iff_eq_none.mp hdup
        rw [hacc, Option.none_or]
        have hstat : (statusStr f == some s) = true := by
          simp [statusStr, hsv, hss]
        rw [firstBuffIcon_cons_pos hstat]
        simp [iconStr, hiv, his]
      · have hne : (st == s) = false := by
          cases hbe : st == s
          · rfl
          · exact absurd (eq_of_beq hbe).symm hs2
        rw [show lookupA ((st, ist) :: acc) s = lookupA acc s from by
              simp [lookupA, hne]] at hm
        rw [hm]
        have hstat : (statusStr f == some s) = false := by
          simp [statusStr, hsv, hss]
          exact fun e => hs2 e.symm
        rw [firstBuffIcon_cons_ne hstat]
    · rw [if_neg hdup] at h
      have hm := ih _ _ h s
      rw [hm]
      by_cases hs2 : s = st
      · subst hs2
        rcases ha : lookupA acc s with _ | a
        · rw [ha] at hdup
          simp at hdup
        · simp [Option.or]
      · have hstat : (statusStr f == some s) = false := by
          simp [statusStr, hsv, hss]
          exact fun e => hs2 e.symm
        rw [firstBuffIcon_cons_ne hstat]

theorem buffFold_nodup :
    ∀ (facts : List (List (String × Json))) (acc m : List (String × String)),
      buffFold facts acc = .ok m →
      (acc.map (fun p => p.1)).Nodup → (m.map (fun p => p.1)).Nodup := by
  intro facts
  induction facts with
  | nil =>
    intro acc m h hnd
    have hacc : acc = m := by
      simpa [buffFold] using h
    subst hacc
    exact hnd
  | cons f fs ih =>
    intro acc m h hnd
    rw [buffFold] at h
    rcases hsv : lookupA f ("status") with _ | sv
    · rw [hsv, ctxE_none, except_bind_error] at h
      exact Except.noConfusion h
    rw [hsv, ctxE_some, except_bind_ok] at h
    rcases hss : sv.asStr with _ | st
    · rw [hss, ctxE_none, except_bind_error] at h
      exact Except.noConfusion h
    rw [hss, ctxE_some, except_bind_ok] at h
    by_cases hdup : (lookupA acc st).isNone
    · rw [if_pos hdup] at h
      rcases hiv : lookupA f ("icon") with _ | iv
      · rw [hiv, ctxE_none, except_bind_error] at h
        exact Except.noConfusion h
      rw [hiv, ctxE_some, except_bind_ok] at h
      rcases his : iv.asStr with _ | ist
      · rw [his, ctxE_none, except_bind_error] at h
        exact Except.noConfusion h
      rw [his, ctxE_some, except_bind_ok] at h
      refine ih _ _ h ?_
      rw [List.map_cons, List.nodup_cons]
      exact ⟨not_mem_keys_of_lookupA_none (Option.isNone_iff_eq_none.mp hdup), hnd⟩
    · rw [if_neg hdup] at h
      exact ih _ _ h hnd

/-- C3: whenever the buff extractor succeeds, the resulting map has at most
one entry per status (its keys are distinct), and the icon stored for each
status is exactly the icon attached to the first Buff-typed fact of the
extracted fact stream carrying that status in input order; later Buff facts
with an already-present status are ignored even if their icon differs. -/
theorem claim3_first_buff_icon (json : Json) (m : List (String × String))
    (h : get_buffs json = .ok m) :
    ∃ facts, buffStream json = .ok facts ∧
      (m.map (fun p => p.1)).Nodup ∧
      ∀ s, lookupA m s = firstBuffIcon facts s := by
  unfold get_buffs at h
  rcases hbs : buffStream json with e | facts
  · rw [hbs] at h
    exact Except.noConfusion h
  · rw [hbs] at h
    rw [show (Except.ok facts : Except Err (List (List (String × Json)))).bind
          (fun fs => buffFold fs []) = buffFold facts [] from rfl] at h
    refine ⟨facts, rfl, buffFold_nodup facts [] m h (by simp), ?_⟩
    intro s
    have hl := buffFold_lookup facts [] m h s
    simpa using hl

/-- C3 witness: two Buff facts with the same status and different icons;
the extractor succeeds and keeps the first icon. -/
theorem claim3_witness :
    get_buffs (.arr [.obj [("facts", .arr [
        .obj [("type", .str ("Buff")), ("status", .str ("s")), ("icon", .str ("i1"))],
        .obj [("type", .str ("Buff")), ("status", .str ("s")), ("icon", .str ("i2"))]])]])
      = .ok [(("s"), ("i1"))] ∧
    ∃ facts, buffStream (.arr [.obj [("facts", .arr [
        .obj [("type", .str ("Buff")), ("status", .str ("s")), ("icon", .str ("i1"))],
        .obj [("type", .str ("Buff")), ("status", .str ("s")), ("icon", .str ("i2"))]])]])
        = .ok facts ∧
      (([(("s"), ("i1"))] : List (String × String)).map (fun p => p.1)).Nodup ∧
      ∀ s, lookupA ([(("s"), ("i1"))] : List (String × String)) s = firstBuffIcon facts s :=
  ⟨rfl, claim3_first_buff_icon _ _ rfl⟩

/-! ## Lemmas for the chunked batch fetcher -/

theorem chunksAux_nil : ∀ fuel : Nat, chunksAux fuel [] = [] := by
  intro fuel
  cases fuel with
  | zero => rfl
  | succ n => rfl

theorem chunksAux_congr :
    ∀ (f1 f2 : Nat) (l : List Nat), l.length ≤ f1 → l.length ≤ f2 →
      chunksAux f1 l = chunksAux f2 l := by
  intro f1
  induction f1 with
  | zero =>
    intro f2 l h1 _
    have hl : l = [] := List.eq_nil_of_length_eq_zero (Nat.le_zero.mp h1)
    subst hl
    rw [chunksAux_nil, chunksAux_nil]
  | succ n ih =>
    intro f2 l h1 h2
    cases l with
    | nil => rw [chunksAux_nil, chunksAux_nil]
    | cons a as =>
      cases f2 with
      | zero =>
        exfalso
        rw [List.length_cons] at h2
        omega
      | succ m =>
        show (a :: as).take 200 :: chunksAux n ((a :: as).drop 200)
          = (a :: as).take 200 :: chunksAux m ((a :: as).drop 200)
        have hd : ((a :: as).drop 200).length ≤ n := by
          rw [List.length_drop, List.length_cons]
          rw [List.length_cons] at h1
          omega
        have hd2 : ((a :: as).drop 200).length ≤ m := by
          rw [List.length_drop, List.length_cons]
          rw [List.length_cons] at h2
          omega
        rw [ih m ((a :: as).drop 200) hd hd2]

theorem chunksOf200_cons_eq (a : Nat) (as : List Nat) :
    chunksOf200 (a :: as) =
      (a :: as).take 200 :: chunksOf200 ((a :: as).drop 200) := by
  show chunksAux (a :: as).length (a :: as) = _
  rw [List.length_cons]
  show (a :: as).take 200 :: chunksAux as.length ((a :: as).drop 200) = _
  unfold chunksOf200
  rw [chunksAux_congr as.length ((a :: as).drop 200).length ((a :: as).drop 200)
        (by rw [List.length_drop, List.length_cons]; omega) (Nat.le_refl _)]

theorem chunksOf200_length_le :
    ∀ (n : Nat) (ids : List Nat), ids.length ≤ n →
      ∀ c ∈ chunksOf200 ids, c.length ≤ 200 := by
  intro n
  induction n with
  | zero =>
    intro ids h c hc
    have hl : ids = [] := List.eq_nil_of_length_eq_zero (Nat.le_zero.mp h)
    subst hl
    simp [chunksOf200, chunksAux] at hc
  | succ n ih =>
    intro ids h c hc
    cases ids with
    | nil => simp [chunksOf200, chunksAux] at hc
    | cons a as =>
      rw [chunksOf200_cons_eq] at hc
      rcases List.mem_cons.mp hc with he | hm
      · rw [he]
        exact List.length_take_le 200 (a :: as)
      · refine ih ((a :: as).drop 200) ?_ c hm
        rw [List.length_drop, List.length_cons]
        rw [List.length_cons] at h
        omega

theorem chunksOf200_flatten :
    ∀ (n : Nat) (ids : List Nat), ids.length ≤ n →
      (chunksOf200 ids).flatten = ids := by
  intro n
  induction n with
  | zero =>
    intro ids h
    have hl : ids = [] := List.eq_nil_of_length_eq_zero (Nat.le_zero.mp h)
    subst hl
    rfl
  | succ n ih =>
    intro ids h
    cases ids with
    | nil => rfl
    | cons a as =>
      rw [chunksOf200_cons_eq, List.flatten_cons]
      rw [ih ((a :: as).drop 200)
            (by rw [List.length_drop, List.length_cons]
                rw [List.length_cons] at h
                omega)]
      exact List.take_append_drop 200 (a :: as)

theorem mapM_of_forall2 {fetch : List Nat → Except Err Json} :
    ∀ {cs : List (List Nat)} {rs : List (List Json)},
      List.Forall₂ (fun c r => fetch c = .ok (.arr r)) cs rs →
      cs.mapM fetch = .ok (rs.map Json.arr) := by
  intro cs rs h
  induction h with
  | nil => rfl
  | cons hcr _ ih =>
    rw [List.mapM_cons, hcr, except_bind_ok, ih, except_bind_ok, List.map_cons]
    rfl

theorem chunksOf200_eq_of_pos (l : List Nat) (h : 0 < l.length) :
    chunksOf200 l = l.take 200 :: chunksOf200 (l.drop 200) := by
  cases l with
  | nil => simp at h
  | cons a as => exact chunksOf200_cons_eq a as

/-- C4: get_data partitions the identifier list into contiguous chunks of
at most 200 elements whose concatenation is the original list; for a list
of length 450 exactly 3 chunks of sizes 200, 200, 50 are fetched; and when
every chunk fetch returns an array, the result is the concatenation of the
chunk results in chunk order. -/
theorem claim4_chunked_fetch (ids : List Nat) (fetch : List Nat → Except Err Json) :
    (∀ c ∈ chunksOf200 ids, c.length ≤ 200) ∧
    (chunksOf200 ids).flatten = ids ∧
    (ids.length = 450 →
      (chunksOf200 ids).length = 3 ∧
      (chunksOf200 ids).map List.length = [200, 200, 50]) ∧
    (∀ rs : List (List Json),
      List.Forall₂ (fun c r => fetch c = .ok (.arr r)) (chunksOf200 ids) rs →
      get_data fetch ids = .ok rs.flatten) := by
  refine ⟨chunksOf200_length_le ids.length ids (Nat.le_refl _),
    chunksOf200_flatten ids.length ids (Nat.le_refl _), ?_, ?_⟩
  · intro h450
    have e1 := chunksOf200_eq_of_pos ids (by omega)
    have hd1 : (ids.drop 200).length = 250 := by
      rw [List.length_drop, h450]
    have e2 := chunksOf200_eq_of_pos (ids.drop 200) (by omega)
    have hd2 : ((ids.drop 200).drop 200).length = 50 := by
      rw [List.length_drop, hd1]
    have e3 := chunksOf200_eq_of_pos ((ids.drop 200).drop 200) (by omega)
    have hd3 : (((ids.drop 200).drop 200).drop 200).length = 0 := by
      rw [List.length_drop, hd2]
    have e4 : chunksOf200 (((ids.drop 200).drop 200).drop 200) = [] := by
      rw [List.eq_nil_of_length_eq_zero hd3]
      rfl
    rw [e1, e2, e3, e4]
    constructor
    · rfl
    · rw [List.map_cons, List.map_cons, List.map_cons, List.map_nil]
      rw [List.length_take, List.length_take, List.length_take]
      rw [h450, hd1, hd2]
      decide
  · intro rs hf
    unfold get_data
    rw [mapM_of_forall2 hf, except_bind_ok]
    rw [@mapM_ok_map (List Json) Json (List Json)
          (fun j => unwrapE j.asArr) Json.arr (fun r => r) (fun _ => rfl) rs,
      except_bind_ok]
    rw [show (rs.map (fun r => r)) = rs from List.map_id' rs]

set_option maxRecDepth 8000 in
/-- C4 witness: the theorem at a concrete 450-element identifier list with
a fetch oracle returning empty arrays. -/
theorem claim4_witness :
    (List.replicate 450 0).length = 450 ∧
    (chunksOf200 (List.replicate 450 0)).map List.length = [200, 200, 50] ∧
    get_data (fun _ => .ok (.arr [])) (List.replicate 450 0) = .ok [] := by
  have h := claim4_chunked_fetch (List.replicate 450 0) (fun _ => .ok (.arr []))
  refine ⟨by simp, (h.2.2.1 (by simp)).2, ?_⟩
  have hc : chunksOf200 (List.replicate 450 0)
      = [List.replicate 200 0, List.replicate 200 0, List.replicate 50 0] := by
    decide
  have hf : List.Forall₂
      (fun c r => (fun _ => (Except.ok (Json.arr []) : Except Err Json)) c = .ok (.arr r))
      (chunksOf200 (List.replicate 450 0)) [[], [], []] := by
    rw [hc]
    exact List.Forall₂.cons rfl (List.Forall₂.cons rfl
      (List.Forall₂.cons rfl List.Forall₂.nil))
  have hg := h.2.2.2 [[], [], []] hf
  simpa using hg

theorem buffFold_status_required :
    ∀ (fs : List (List (String × Json))) (acc : List (String × String))
      (f : List (String × Json)),
      f ∈ fs → statusStr f = none →
      ∃ msg, buffFold fs acc = .error (.shape msg) := by
  intro fs
  induction fs with
  | nil =>
    intro acc f hf _
    exact absurd hf (by simp)
  | cons g gs ih =>
    intro acc f hf hst
    rw [buffFold]
    rcases hsv : lookupA g ("status") with _ | sv
    · rw [ctxE_none, except_bind_error]
      exact ⟨_, rfl⟩
    rw [ctxE_some, except_bind_ok]
    rcases hss : sv.asStr with _ | st
    · rw [ctxE_none, except_bind_error]
      exact ⟨_, rfl⟩
    rw [ctxE_some, except_bind_ok]
    rcases List.mem_cons.mp hf with he | hf2
    · exfalso
      rw [he] at hst
      unfold statusStr at hst
      rw [hsv, Option.some_bind, hss] at hst
      exact Option.noConfusion hst
    by_cases hdup : (lookupA acc st).isNone
    · rw [if_pos hdup]
      rcases hiv : lookupA g ("icon") with _ | iv
      · rw [ctxE_none, except_bind_error]
        exact ⟨_, rfl⟩
      rcases his : iv.asStr with _ | ist
      · rw [ctxE_some, except_bind_ok, his, ctxE_none, except_bind_error]
        exact ⟨_, rfl⟩
      rw [ctxE_some, except_bind_ok, his, ctxE_some, except_bind_ok]
      exact ih _ f hf2 hst
    · rw [if_neg hdup]
      exact ih _ f hf2 hst

theorem buffFold_first_icon_required :
    ∀ (fs1 fs2 : List (List (String × Json))) (f : List (String × Json))
      (acc : List (String × String)) (s : String),
      statusStr f = some s → lookupA acc s = none →
      (∀ g ∈ fs1, statusStr g ≠ some s) → iconStr f = none →
      ∃ msg, buffFold (fs1 ++ f :: fs2) acc = .error (.shape msg) := by
  intro fs1
  induction fs1 with
  | nil =>
    intro fs2 f acc s hst hacc _ hic
    rw [List.nil_append]
    unfold statusStr at hst
    rcases hsv : lookupA f ("status") with _ | sv
    · rw [hsv] at hst
      exact Option.noConfusion hst
    rw [hsv, Option.some_bind] at hst
    rw [buffFold, hsv, ctxE_some, except_bind_ok, hst, ctxE_some, except_bind_ok]
    rw [hacc, if_pos (by rfl)]
    unfold iconStr at hic
    rcases hiv : lookupA f ("icon") with _ | iv
    · rw [ctxE_none, except_bind_error]
      exact ⟨_, rfl⟩
    · rw [hiv, Option.some_bind] at hic
      rw [ctxE_some, except_bind_ok, hic, ctxE_none, except_bind_error]
      exact ⟨_, rfl⟩
  | cons g gs ih =>
    intro fs2 f acc s hst hacc hfs1 hic
    rw [List.cons_append, buffFold]
    rcases hsv : lookupA g ("status") with _ | sv
    · rw [ctxE_none, except_bind_error]
      exact ⟨_, rfl⟩
    rw [ctxE_some, except_bind_ok]
    rcases hss : sv.asStr with _ | t
    · rw [ctxE_none, except_bind_error]
      exact ⟨_, rfl⟩
    rw [ctxE_some, except_bind_ok]
    have htne : t ≠ s := by
      intro he
      refine hfs1 g (by simp) ?_
      unfold statusStr
      rw [hsv, Option.some_bind, hss, he]
    by_cases hdup : (lookupA acc t).isNone
    · rw [if_pos hdup]
      rcases hiv : lookupA g ("icon") with _ | iv
      · rw [ctxE_none, except_bind_error]
        exact ⟨_, rfl⟩
      rcases his : iv.asStr with _ | ist
      · rw [ctxE_some, except_bind_ok, his, ctxE_none, except_bind_error]
        exact ⟨_, rfl⟩
      rw [ctxE_some, except_bind_ok, his, ctxE_some, except_bind_ok]
      refine ih fs2 f ((t, ist) :: acc) s hst ?_
        (fun g2 hg2 => hfs1 g2 (by simp [hg2])) hic
      have hbe : (t == s) = false := by
        cases hbe2 : t == s
        · rfl
        · exact absurd (eq_of_beq hbe2) htne
      simp [lookupA, hbe, hacc]
    · rw [if_neg hdup]
      exact ih fs2 f acc s hst hacc (fun g2 hg2 => hfs1 g2 (by simp [hg2])) hic

theorem buffFold_dup_skips (f : List (String × Json)) (fs : List (List (String × Json)))
    (acc : List (String × String)) (s : String)
    (hst : statusStr f = some s) (hdup : (lookupA acc s).isSome = true) :
    buffFold (f :: fs) acc = buffFold fs acc := by
  unfold statusStr at hst
  rcases hsv : lookupA f ("status") with _ | sv
  · rw [hsv] at hst
    exact Option.noConfusion hst
  rw [hsv, Option.some_bind] at hst
  rw [buffFold, hsv, ctxE_some, except_bind_ok, hst, ctxE_some, except_bind_ok]
  rcases hl : lookupA acc s with _ | a
  · rw [hl] at hdup
    simp at hdup
  · rw [if_neg (by simp)]

/-- C6 (amended): in the buff insertion loop, a missing or non-string
status of any Buff-typed fact in the stream always makes the extractor fail
with a recoverable shape error, including for facts whose status duplicates
one already inserted; a missing or non-string icon makes it fail exactly
when the fact is the first one carrying its status and that status is not
yet in the map; for a fact whose status is already present the icon is not
examined at all (the step is skipped even if the icon is missing).  The
extractor is the extraction phase followed by this loop. -/
theorem claim6_buff_fact_errors :
    (∀ (fs : List (List (String × Json))) (acc : List (String × String))
        (f : List (String × Json)),
      f ∈ fs → statusStr f = none →
      ∃ msg, buffFold fs acc = .error (.shape msg)) ∧
    (∀ (fs1 fs2 : List (List (String × Json))) (f : List (String × Json))
        (acc : List (String × String)) (s : String),
      statusStr f = some s → lookupA acc s = none →
      (∀ g ∈ fs1, statusStr g ≠ some s) → iconStr f = none →
      ∃ msg, buffFold (fs1 ++ f :: fs2) acc = .error (.shape msg)) ∧
    (∀ (f : List (String × Json)) (fs : List (List (String × Json)))
        (acc : List (String × String)) (s : String),
      statusStr f = some s → (lookupA acc s).isSome = true →
      buffFold (f :: fs) acc = buffFold fs acc) ∧
    (∀ json : Json,
      get_buffs json = (buffStream json).bind (fun fs => buffFold fs [])) :=
  ⟨buffFold_status_required, buffFold_first_icon_required,
    buffFold_dup_skips, fun _ => rfl⟩

/-- C6 counterexample: a Buff-typed fact with a duplicate status and no
icon does not make get_buffs fail; the extractor succeeds and keeps the
first icon, refuting the claim that a missing icon always fails even for
duplicate-status facts. -/
theorem claim6_cex :
    get_buffs (.arr [.obj [("facts", .arr [
        .obj [("type", .str ("Buff")), ("status", .str ("s")), ("icon", .str ("i"))],
        .obj [("type", .str ("Buff")), ("status", .str ("s"))]])]])
      = .ok [(("s"), ("i"))] := rfl

/-- C6 witness: the amended theorem applied to a fact without status, to a
first fact of its status without icon, and to a duplicate-status fact
without icon that is skipped. -/
theorem claim6_witness :
    (∃ msg, buffFold [[(("type"), Json.str ("Buff"))]] [] = .error (.shape msg)) ∧
    (∃ msg, buffFold [[(("type"), Json.str ("Buff")), (("status"), Json.str ("s"))]] []
      = .error (.shape msg)) ∧
    buffFold [[(("type"), Json.str ("Buff")), (("status"), Json.str ("s"))]]
        [(("s"), ("i"))]
      = .ok [(("s"), ("i"))] := by
  have h := claim6_buff_fact_errors
  refine ⟨h.1 [[(("type"), Json.str ("Buff"))]] []
      [(("type"), Json.str ("Buff"))] (by simp) rfl, ?_, ?_⟩
  · exact h.2.1 [] [] [(("type"), Json.str ("Buff")), (("status"), Json.str ("s"))]
      [] ("s") rfl rfl (by simp) rfl
  · rw [h.2.2.1 [(("type"), Json.str ("Buff")), (("status"), Json.str ("s"))] []
        [(("s"), ("i"))] ("s") rfl rfl]
    rfl

/-! ## Lemmas for the enrichment join -/

theorem asU64_ofNat (n : Nat) : (Json.num (n : Int)).asU64 = some n := by
  show (if (n : Int) < 0 then none else some ((n : Int)).toNat) = some n
  rw [if_neg (by omega), Int.toNat_ofNat]

theorem enrichOne_encTraitP_some (m : List (Nat × (String × String))) (r : TRecP)
    (e : String × String) (hl : lookupN m (r.spec % 2 ^ 32) = some e) :
    enrichOne m (encTraitP r) = .ok (encTraitE r e.1 e.2) := by
  unfold enrichOne
  rw [show (encTraitP r).get ("specialization")
        = some (.num (r.spec : Int)) from rfl]
  rw [ctxE_some, except_bind_ok, asU64_ofNat, ctxE_some, except_bind_ok]
  rw [hl, ctxE_some, except_bind_ok, except_bind_ok]
  rfl

theorem enrichOne_encTraitP_none (m : List (Nat × (String × String))) (r : TRecP)
    (hl : lookupN m (r.spec % 2 ^ 32) = none) :
    enrichOne m (encTraitP r) = .error (.shape ("cannot find spec")) := by
  unfold enrichOne
  rw [show (encTraitP r).get ("specialization")
        = some (.num (r.spec : Int)) from rfl]
  rw [ctxE_some, except_bind_ok, asU64_ofNat, ctxE_some, except_bind_ok]
  rw [hl, ctxE_none, except_bind_error]

theorem mapM_enrich (m : List (Nat × (String × String))) :
    ∀ l : List TRecP,
      ((∀ r ∈ l, (lookupN m (r.spec % 2 ^ 32)).isSome = true) →
        (l.map encTraitP).mapM (enrichOne m)
          = .ok (l.map (fun r => encTraitE r (specOf m r).1 (specOf m r).2))) ∧
      ((∃ r ∈ l, lookupN m (r.spec % 2 ^ 32) = none) →
        (l.map encTraitP).mapM (enrichOne m)
          = .error (.shape ("cannot find spec"))) := by
  intro l
  induction l with
  | nil =>
    refine ⟨fun _ => rfl, ?_⟩
    rintro ⟨r, hr, _⟩
    exact absurd hr (by simp)
  | cons r rs ih =>
    constructor
    · intro hall
      have hr := hall r (by simp)
      rcases hl : lookupN m (r.spec % 2 ^ 32) with _ | e
      · rw [hl] at hr
        simp at hr
      · rw [List.map_cons, List.mapM_cons, enrichOne_encTraitP_some m r e hl,
          except_bind_ok, ih.1 (fun x hx => hall x (by simp [hx])), except_bind_ok,
          List.map_cons]
        rw [show specOf m r = e from by unfold specOf; rw [hl]; rfl]
        rfl
    · rintro ⟨r2, hr2, hnone⟩
      rcases List.mem_cons.mp hr2 with he | hr3
      · rw [List.map_cons, List.mapM_cons,
          enrichOne_encTraitP_none m r (by rw [← he]; exact hnone),
          except_bind_error]
      · rcases hl : lookupN m (r.spec % 2 ^ 32) with _ | e
        · rw [List.map_cons, List.mapM_cons, enrichOne_encTraitP_none m r hl,
            except_bind_error]
        · rw [List.map_cons, List.mapM_cons, enrichOne_encTraitP_some m r e hl,
            except_bind_ok, ih.2 ⟨r2, hr3, hnone⟩, except_bind_error]

/-- C5: on a list of well-formed projected traits, traits_to_markdown fails
with the recoverable JoinError message "cannot find spec" if and only if
some trait's (32-bit truncated) specialization id is absent from the
specialization index; when every id resolves, the enrichment loop completes
over all traits, adding the profession and spec_str fields from the index
entry to each trait, before the rendering phase consumes the enriched
list. -/
theorem claim5_enrichment_join (l : List TRecP) (m : List (Nat × (String × String))) :
    (traits_to_markdown (.arr (l.map encTraitP)) m
        = .error (.shape ("cannot find spec"))
      ↔ ∃ r ∈ l, lookupN m (r.spec % 2 ^ 32) = none) ∧
    ((∀ r ∈ l, (lookupN m (r.spec % 2 ^ 32)).isSome = true) →
      enrichTraits (.arr (l.map encTraitP)) m
        = .ok (.arr (l.map (fun r => encTraitE r (specOf m r).1 (specOf m r).2))) ∧
      traits_to_markdown (.arr (l.map encTraitP)) m
        = traitsRenderPhase
            (.arr (l.map (fun r => encTraitE r (specOf m r).1 (specOf m r).2)))) := by
  have hm := mapM_enrich m l
  have henr : (∀ r ∈ l, (lookupN m (r.spec % 2 ^ 32)).isSome = true) →
      enrichTraits (.arr (l.map encTraitP)) m
        = .ok (.arr (l.map (fun r => encTraitE r (specOf m r).1 (specOf m r).2))) := by
    intro hall
    unfold enrichTraits
    rw [show (Json.arr (l.map encTraitP)).asArr = some (l.map encTraitP) from rfl,
      ctxE_some, except_bind_ok, hm.1 hall, except_bind_ok]
  have hphase : ∃ out,
      traitsRenderPhase
          (.arr (l.map (fun r => encTraitE r (specOf m r).1 (specOf m r).2)))
        = .ok out :=
    ⟨_, traitsRenderPhase_f
        (fun r => encTraitEC r (specOf m r).1 (specOf m r).2)
        ⟨fun r => (specOf m r).1, fun r => (specOf m r).2,
          fun r => r.name, fun r => r.icon⟩
        (fun _ => rfl) (fun _ => rfl) (fun _ => rfl) (fun _ => rfl) l⟩
  constructor
  · constructor
    · intro herr
      by_contra hno
      push_neg at hno
      have hall : ∀ r ∈ l, (lookupN m (r.spec % 2 ^ 32)).isSome = true := by
        intro r hr
        rcases hlk : lookupN m (r.spec % 2 ^ 32) with _ | e
        · exact absurd hlk (hno r hr)
        · rfl
      unfold traits_to_markdown at herr
      rw [henr hall, except_bind_ok] at herr
      obtain ⟨out, hout⟩ := hphase
      rw [hout] at herr
      exact Except.noConfusion herr
    · rintro ⟨r, hr, hnone⟩
      unfold traits_to_markdown enrichTraits
      rw [show (Json.arr (l.map encTraitP)).asArr = some (l.map encTraitP) from rfl,
        ctxE_some, except_bind_ok, hm.2 ⟨r, hr, hnone⟩, except_bind_error,
        except_bind_error]
  · intro hall
    refine ⟨henr hall, ?_⟩
    unfold traits_to_markdown
    rw [henr hall, except_bind_ok]

/-- C5 witness: the theorem at the spec's own join example, in both the
resolving and the missing-id directions. -/
theorem claim5_witness :
    (enrichTraits (.arr (([⟨"X", "i", 1⟩] : List TRecP).map encTraitP))
        [(1, ("Guardian", "Zeal"))]
      = .ok (.arr (([⟨"X", "i", 1⟩] : List TRecP).map
          (fun r => encTraitE r (specOf [(1, ("Guardian", "Zeal"))] r).1
            (specOf [(1, ("Guardian", "Zeal"))] r).2))) ∧
      traits_to_markdown (.arr (([⟨"X", "i", 1⟩] : List TRecP).map encTraitP))
          [(1, ("Guardian", "Zeal"))]
        = traitsRenderPhase (.arr (([⟨"X", "i", 1⟩] : List TRecP).map
            (fun r => encTraitE r (specOf [(1, ("Guardian", "Zeal"))] r).1
              (specOf [(1, ("Guardian", "Zeal"))] r).2)))) ∧
    traits_to_markdown (.arr (([⟨"X", "i", 1⟩] : List TRecP).map encTraitP)) []
      = .error (.shape ("cannot find spec")) :=
  ⟨(claim5_enrichment_join _ _).2 (by decide),
    ((claim5_enrichment_join [⟨"X", "i", 1⟩] []).1).mpr ⟨⟨"X", "i", 1⟩, by simp, rfl⟩⟩

/-- C7 (amended): a surviving skill record that is missing name or icon
makes rendering fail by an unwrap PANIC (an abort), not by a recoverable
ShapeError surfaced through the renderer's error result. -/
theorem claim7_missing_field_panics (p t n i : String) :
    skills_to_markdown (.arr [.obj [("professions", .arr [.str p]),
        ("type", .str t), ("name", .str n)]])
      = .error (.panic ("unwrap")) ∧
    skills_to_markdown (.arr [.obj [("professions", .arr [.str p]),
        ("type", .str t), ("icon", .str i)]])
      = .error (.panic ("unwrap")) :=
  ⟨rfl, rfl⟩

/-- C7 counterexample: a surviving record without icon fails with a panic,
and the result is not a recoverable shape error, contradicting the claim
that a ShapeError is surfaced through the renderer's error result. -/
theorem claim7_cex :
    skills_to_markdown (.arr [.obj [("professions", .arr [.str ("A")]),
        ("type", .str ("t")), ("name", .str ("n"))]])
      = .error (.panic ("unwrap")) ∧
    isShapeError (skills_to_markdown (.arr [.obj [("professions", .arr [.str ("A")]),
        ("type", .str ("t")), ("name", .str ("n"))]])) = false :=
  ⟨rfl, rfl⟩

/-- C8: whenever the pipeline tail reaches output, the emitted line list is
the buff markdown, followed by the trait markdown, followed by the skill
markdown, concatenated in that literal order. -/
theorem claim8_output_order (a b c : Json) (out : List String)
    (h : mainRender a b c = .ok out) :
    ∃ buffs specs skills traits bm tm sm,
      get_buffs c = .ok buffs ∧
      shrink_specializations a = .ok specs ∧
      shrink_skills b = .ok skills ∧
      shrink_traits c = .ok traits ∧
      buffs_to_markdown buffs = .ok bm ∧
      skills_to_markdown skills = .ok sm ∧
      traits_to_markdown traits specs = .ok tm ∧
      out = bm ++ tm ++ sm := by
  unfold mainRender at h
  rcases h1 : get_buffs c with e | buffs
  · rw [h1, except_bind_error] at h
    exact Except.noConfusion h
  rw [h1, except_bind_ok] at h
  rcases h2 : shrink_specializations a with e | specs
  · rw [h2, except_bind_error] at h
    exact Except.noConfusion h
  rw [h2, except_bind_ok] at h
  rcases h3 : shrink_skills b with e | skills
  · rw [h3, except_bind_error] at h
    exact Except.noConfusion h
  rw [h3, except_bind_ok] at h
  rcases h4 : shrink_traits c with e | traits
  · rw [h4, except_bind_error] at h
    exact Except.noConfusion h
  rw [h4, except_bind_ok] at h
  rcases h5 : buffs_to_markdown buffs with e | bm
  · rw [h5, except_bind_error] at h
    exact Except.noConfusion h
  rw [h5, except_bind_ok] at h
  rcases h6 : skills_to_markdown skills with e | sm
  · rw [h6, except_bind_error] at h
    exact Except.noConfusion h
  rw [h6, except_bind_ok] at h
  rcases h7 : traits_to_markdown traits specs with e | tm
  · rw [h7, except_bind_error] at h
    exact Except.noConfusion h
  rw [h7, except_bind_ok] at h
  exact ⟨buffs, specs, skills, traits, bm, tm, sm, rfl, rfl, rfl, rfl, h5, h6,
    h7, (Except.ok.inj h).symm⟩

/-- C8 witness: the theorem at empty category arrays, whose output is the
single buff header line. -/
theorem claim8_witness :
    ∃ buffs specs skills traits bm tm sm,
      get_buffs (.arr []) = .ok buffs ∧
      shrink_specializations (.arr []) = .ok specs ∧
      shrink_skills (.arr []) = .ok skills ∧
      shrink_traits (.arr []) = .ok traits ∧
      buffs_to_markdown buffs = .ok bm ∧
      skills_to_markdown skills = .ok sm ∧
      traits_to_markdown traits specs = .ok tm ∧
      (["## Buffs"] : List String) = bm ++ tm ++ sm :=
  claim8_output_order (.arr []) (.arr []) (.arr []) ["## Buffs"] rfl

/-! ## Lemmas for the specialization index truncation -/

theorem specFold_enc_cons (id : Nat) (p n : String) (rest : List Json)
    (acc : List (Nat × (String × String))) :
    specFold (encSpecRec id p n :: rest) acc
      = specFold rest ((id % 2 ^ 32, (p, n)) :: acc) := by
  rw [specFold]
  rw [show (encSpecRec id p n).get ("id") = some (.num (id : Int)) from rfl,
    ctxE_some, except_bind_ok, asU64_ofNat, ctxE_some, except_bind_ok]
  rfl

/-- C10: the specialization index stores each record's id truncated to its
low 32 bits (the u64-to-i32 cast), so two records with distinct ids that
are congruent modulo 2^32 collide on the same key and the later record's
(profession, name) pair wins the lookup; the trait enrichment likewise
looks up the trait's specialization id truncated modulo 2^32. -/
theorem claim10_id_truncation :
    (∀ (ida idb : Nat) (pa na pb nb : String)
        (mres : List (Nat × (String × String))),
      ida ≠ idb → ida % 2 ^ 32 = idb % 2 ^ 32 →
      shrink_specializations
          (.arr [encSpecRec ida pa na, encSpecRec idb pb nb]) = .ok mres →
      lookupN mres (ida % 2 ^ 32) = some (pb, nb)) ∧
    (∀ (r : TRecP) (m : List (Nat × (String × String))) (pr sp : String),
      lookupN m (r.spec % 2 ^ 32) = some (pr, sp) →
      enrichOne m (encTraitP r) = .ok (encTraitE r pr sp)) := by
  constructor
  · intro ida idb pa na pb nb mres hne hcong hsh
    have hcomp : shrink_specializations
        (.arr [encSpecRec ida pa na, encSpecRec idb pb nb])
        = .ok [(idb % 2 ^ 32, (pb, nb)), (ida % 2 ^ 32, (pa, na))] := by
      unfold shrink_specializations
      rw [show (Json.arr [encSpecRec ida pa na, encSpecRec idb pb nb]).asArr
            = some [encSpecRec ida pa na, encSpecRec idb pb nb] from rfl,
        ctxE_some, except_bind_ok, specFold_enc_cons, specFold_enc_cons]
      rfl
    rw [hcomp] at hsh
    have hm : mres = [(idb % 2 ^ 32, (pb, nb)), (ida % 2 ^ 32, (pa, na))] :=
      (Except.ok.inj hsh).symm
    subst hm
    rw [hcong]
    simp [lookupN]
  · intro r m pr sp hl
    exact enrichOne_encTraitP_some m r (pr, sp) hl

/-- C10 witness: the ids 2^32 and 0 are distinct but congruent modulo 2^32;
the index maps their shared key to the later record's pair, and enrichment
of a trait with specialization id 2^32 resolves through the truncated key
0. -/
theorem claim10_witness :
    (2 ^ 32 : Nat) ≠ 0 ∧ (2 ^ 32 : Nat) % 2 ^ 32 = 0 % 2 ^ 32 ∧
    shrink_specializations (.arr [encSpecRec (2 ^ 32) ("p1") ("n1"),
        encSpecRec 0 ("p2") ("n2")])
      = .ok [(0 % 2 ^ 32, (("p2"), ("n2"))), (2 ^ 32 % 2 ^ 32, (("p1"), ("n1")))] ∧
    lookupN [(0 % 2 ^ 32, (("p2"), ("n2"))), (2 ^ 32 % 2 ^ 32, (("p1"), ("n1")))]
        (2 ^ 32 % 2 ^ 32) = some (("p2"), ("n2")) ∧
    enrichOne [(0, (("Guardian"), ("Zeal")))] (encTraitP ⟨"X", "i", 2 ^ 32⟩)
      = .ok (encTraitE ⟨"X", "i", 2 ^ 32⟩ ("Guardian") ("Zeal")) := by
  have h := claim10_id_truncation
  refine ⟨by decide, by decide, ?_, ?_, ?_⟩
  · unfold shrink_specializations
    rw [show (Json.arr [encSpecRec (2 ^ 32) ("p1") ("n1"),
          encSpecRec 0 ("p2") ("n2")]).asArr
          = some [encSpecRec (2 ^ 32) ("p1") ("n1"), encSpecRec 0 ("p2") ("n2")]
          from rfl,
      ctxE_some, except_bind_ok, specFold_enc_cons, specFold_enc_cons]
    rfl
  · exact h.1 (2 ^ 32) 0 ("p1") ("n1") ("p2") ("n2") _ (by decide) (by decide)
      (by unfold shrink_specializations
          rw [show (Json.arr [encSpecRec (2 ^ 32) ("p1") ("n1"),
                encSpecRec 0 ("p2") ("n2")]).asArr
                = some [encSpecRec (2 ^ 32) ("p1") ("n1"),
                    encSpecRec 0 ("p2") ("n2")] from rfl,
            ctxE_some, except_bind_ok, specFold_enc_cons, specFold_enc_cons]
          rfl)
  · exact h.2 ⟨("X"), ("i"), 2 ^ 32⟩ [(0, (("Guardian"), ("Zeal")))]
      ("Guardian") ("Zeal") (by decide)
